import Mathlib

/-!
Spiking network and Morton codec.

A shallow embedding of `coordinates.go` (Morton encoding of three coordinates) and of the
simulation core of `main.go` (network construction and the per-tick update), with the
properties proved about them.

Conventions: unsigned machine integers are naturals, reduced modulo `2^w` where the source
can overflow; Go's `int` is an integer, wrapped to 64 bits where the source can overflow (the
increment of the tick counter; the refractory timer is only decremented while positive); a
run-time panic is `none`; the process-wide random source is an explicit stream.
-/

namespace Spikenn

/-! Definitions. -/

/-- The function `spreadBits` of coordinates.go, on `uint64` values held as naturals; a left
shift is reduced modulo `2^64`. -/
def spreadBits (n : Nat) : Nat :=
  let n := n &&& 0x1fffff
  let n := (n ||| (n <<< 32) % 2^64) &&& 0x1f00000000ffff
  let n := (n ||| (n <<< 16) % 2^64) &&& 0x1f0000ff0000ff
  let n := (n ||| (n <<< 8) % 2^64) &&& 0x100f00f00f00f00f
  let n := (n ||| (n <<< 4) % 2^64) &&& 0x10c30c30c30c30c3
  let n := (n ||| (n <<< 2) % 2^64) &&& 0x1249249249249249
  n

/-- The function `deinterleaveBits64` of coordinates.go. -/
def deinterleaveBits64 (n : Nat) : Nat :=
  let n := n &&& 0x1249249249249249
  let n := (n ^^^ (n >>> 2)) &&& 0x10c30c30c30c30c3
  let n := (n ^^^ (n >>> 4)) &&& 0x100f00f00f00f00f
  let n := (n ^^^ (n >>> 8)) &&& 0x1f0000ff0000ff
  let n := (n ^^^ (n >>> 16)) &&& 0x1f00000000ffff
  let n := (n ^^^ (n >>> 32)) &&& 0x1fffff
  n

/-- The function `interleaveBits64` of coordinates.go. -/
def interleaveBits64 (x y z : Nat) : Nat :=
  let x := spreadBits x
  let y := spreadBits y
  let z := spreadBits z
  x ||| (y <<< 1) % 2^64 ||| (z <<< 2) % 2^64

/-- The function `EncodeMorton3D` of coordinates.go; the arguments are `uint32` values, widened
to `uint64` unchanged. -/
def EncodeMorton3D (x y z : Nat) : Nat :=
  interleaveBits64 x y z

/-- The function `DecodeMorton3D` of coordinates.go; each component is narrowed to `uint32`. -/
def DecodeMorton3D (morton : Nat) : Nat × Nat × Nat :=
  let x := deinterleaveBits64 morton % 2^32
  let y := deinterleaveBits64 (morton >>> 1) % 2^32
  let z := deinterleaveBits64 (morton >>> 2) % 2^32
  (x, y, z)

/-- The function `Encode3D` of coordinates.go: a switch on the method name whose only case is
"morton"; `none` stands for leaving the switch without a return value. -/
def Encode3D (x y z : Nat) (method : String) : Option Nat :=
  if method = "morton" then some (EncodeMorton3D x y z) else none

/-- The function `Decode3D` of coordinates.go, same dispatch as `Encode3D`. -/
def Decode3D (morton : Nat) (method : String) : Option (Nat × Nat × Nat) :=
  if method = "morton" then some (DecodeMorton3D morton) else none

/-- Bit `i` of `x` as a number, 0 or 1. -/
def bitAt (x i : Nat) : Nat := (x.testBit i).toNat

/-- A symbolic bit of a word computed from an input word: known zero, a copy of input bit `k`,
or not tracked. -/
inductive SBit where
  | zero : SBit
  | bit (k : Nat) : SBit
  | top : SBit
  deriving DecidableEq, Repr

/-- The symbolic bit `s` describes the boolean `b`, the input word having bits `f`. -/
def SBit.Reads (f : Nat → Bool) : SBit → Bool → Prop
  | .zero, b => b = false
  | .bit k, b => b = f k
  | .top, _ => True

/-- Join of two symbolic bits of which at most one may be set (used for `|` and for `^`). -/
def SBit.join : SBit → SBit → SBit
  | .zero, b => b
  | a, .zero => a
  | _, _ => .top

/-- Symbolic bit masked by a constant bit. -/
def SBit.mask (c : Bool) (a : SBit) : SBit := if c then a else .zero

/-- Symbolic word: one symbolic bit per position. -/
abbrev SWord := Nat → SBit

/-- The symbolic word `s` describes the bits of `x`, the input word having bits `f`. -/
def SWord.Reads (f : Nat → Bool) (s : SWord) (x : Nat) : Prop :=
  ∀ j, (s j).Reads f (x.testBit j)

/-- The input word itself: position `j` holds input bit `j`. -/
def SWord.input : SWord := fun j => .bit j

/-- Symbolic `x & m` for a constant mask `m`. -/
def SWord.and (s : SWord) (m : Nat) : SWord := fun j => (s j).mask (m.testBit j)

/-- Symbolic `x | x << k` on 64-bit words. -/
def SWord.orShl (s : SWord) (k : Nat) : SWord :=
  fun j => (s j).join (if j < 64 ∧ k ≤ j then s (j - k) else .zero)

/-- Symbolic `x ^ x >> k`. -/
def SWord.xorShr (s : SWord) (k : Nat) : SWord :=
  fun j => (s j).join (s (j + k))

/-- Symbolic run of `spreadBits`. -/
def symSpread : SWord :=
  let n := SWord.input.and 0x1fffff
  let n := (n.orShl 32).and 0x1f00000000ffff
  let n := (n.orShl 16).and 0x1f0000ff0000ff
  let n := (n.orShl 8).and 0x100f00f00f00f00f
  let n := (n.orShl 4).and 0x10c30c30c30c30c3
  let n := (n.orShl 2).and 0x1249249249249249
  n

/-- Symbolic run of `deinterleaveBits64`. -/
def symCompact : SWord :=
  let n := SWord.input.and 0x1249249249249249
  let n := (n.xorShr 2).and 0x10c30c30c30c30c3
  let n := (n.xorShr 4).and 0x100f00f00f00f00f
  let n := (n.xorShr 8).and 0x1f0000ff0000ff
  let n := (n.xorShr 16).and 0x1f00000000ffff
  let n := (n.xorShr 32).and 0x1fffff
  n

/-- A value of type `float64`, kept as the expression that computes it; floating-point arithmetic is
not interpreted. -/
inductive F64 where
  | ofInt (i : Int) : F64
  | mul (a b : F64) : F64
  | div (a b : F64) : F64
  | add (a b : F64) : F64
  deriving DecidableEq, Repr

/-- The struct `Synapse` of main.go: `PostSynapticNeuron` is a `uint64`, `Weight` an `int16`. -/
structure Synapse where
  PostSynapticNeuron : Nat
  Weight : Int
  deriving DecidableEq, Repr

/-- The struct `Neuron` of main.go: the four potentials are `uint16`, `RefractoryTimer` is an
`int`. -/
structure Neuron where
  Potential : Nat
  Threshold : Nat
  ResetPotential : Nat
  PotentialDecay : Nat
  Synapses : List Synapse
  Position : F64 × F64
  IsFiring : Bool
  RefractoryTimer : Int
  deriving DecidableEq, Repr

/-- The struct `Network` of main.go. The slice of neuron pointers is a list of neuron values:
the pointers are taken to be non-nil and pairwise distinct, as `InitNetwork` allocates them. -/
structure Network where
  Neurons : List Neuron
  deriving DecidableEq, Repr

/-- The struct `Game` of main.go. -/
structure Game where
  Network : Network
  TickCount : Int
  deriving DecidableEq, Repr

/-- The random source: an unbounded stream of raw draws, consumed from the front. -/
abbrev Rand := Nat → Nat

/-- The call `rand.Intn(n)`: it panics (`none`) for `n ≤ 0`, otherwise yields a value of
`[0, n)` and the rest of the stream. Every value of `[0, n)` is the outcome for some stream. -/
def Intn (n : Int) (r : Rand) : Option (Nat × Rand) :=
  if n ≤ 0 then none else some (r 0 % n.toNat, fun k => r (k + 1))

/-- Conversion of an integer to `uint16`. -/
def toUint16 (i : Int) : Nat := (i % 65536).toNat

/-- Conversion of an integer to `int16`. -/
def toInt16 (i : Int) : Int := (i + 32768) % 65536 - 32768

/-- Conversion of an integer to `uint64`. -/
def toUint64 (i : Int) : Nat := (i % 18446744073709551616).toNat

/-- The inner loop of `Game.Update`: every synapse adds its weight to the potential of its
target; a target outside the slice is an index panic (`none`). -/
def propagate : List Synapse → List Neuron → Option (List Neuron)
  | [], ns => some ns
  | synapse :: rest, ns =>
    match ns[synapse.PostSynapticNeuron]? with
    | none => none
    | some postNeuron =>
      propagate rest (ns.set synapse.PostSynapticNeuron
        { postNeuron with
          Potential := (postNeuron.Potential + toUint16 synapse.Weight) % 65536 })

/-- The potential of a non-refractory neuron after the random input `v` and the decay. -/
def integrate (neuron : Neuron) (v : Nat) : Nat :=
  toUint16 (((neuron.Potential + toUint16 v) % 65536 : Nat) - (neuron.PotentialDecay : Int))

/-- The body of the loop of `Game.Update` for the neuron at index `i`. -/
def stepNeuron (ns : List Neuron) (i : Nat) (r : Rand) : Option (List Neuron × Rand) :=
  match ns[i]? with
  | none => none
  | some neuron =>
    if neuron.RefractoryTimer > 0 then
      some (ns.set i { neuron with RefractoryTimer := neuron.RefractoryTimer - 1 }, r)
    else
      match Intn 3 r with
      | none => none
      | some (v, r1) =>
        let potential := integrate neuron v
        if potential ≥ neuron.Threshold then
          (propagate neuron.Synapses
            (ns.set i { neuron with
              IsFiring := true, Potential := neuron.ResetPotential, RefractoryTimer := 20 })).map
            (fun ns1 => (ns1, r1))
        else
          some (ns.set i { neuron with Potential := potential, IsFiring := false }, r1)

/-- The loop of `Game.Update` over the neurons of index `0 .. k-1`, in index order. -/
def updateLoop : Nat → List Neuron → Rand → Option (List Neuron × Rand)
  | 0, ns, r => some (ns, r)
  | k + 1, ns, r => (updateLoop k ns r).bind (fun s => stepNeuron s.1 k s.2)

/-- What a call of `Game.Update` leaves behind: the game, the random source and the returned
`error` (`none` for `nil`). -/
structure Outcome where
  game : Game
  rand : Rand
  err : Option String

/-- Conversion of an integer to Go's `int`, taken as 64 bits wide (two's complement), as on
the 64-bit platforms: the result of an `int` operation that leaves the range wraps around. -/
def wrapInt (i : Int) : Int :=
  (i + 9223372036854775808) % 18446744073709551616 - 9223372036854775808

/-- The function `Game.Update` of main.go; `none` is a run-time panic. The increment of the
tick counter wraps at the largest `int`. -/
def Update (g : Game) (r : Rand) : Option Outcome :=
  let tickCount := wrapInt (g.TickCount + 1)
  (updateLoop g.Network.Neurons.length g.Network.Neurons r).map
    (fun s => { game := { Network := { Neurons := s.1 }, TickCount := tickCount },
                rand := s.2, err := none })

/-- The state after `k` successive calls of `Game.Update`. -/
def ticks : Nat → Game → Rand → Option (Game × Rand)
  | 0, g, r => some (g, r)
  | k + 1, g, r => (ticks k g r).bind (fun s => (Update s.1 s.2).map (fun o => (o.game, o.rand)))

/-- Every synapse target is an index of the network. -/
def WellFormed (ns : List Neuron) : Prop :=
  ∀ n ∈ ns, ∀ s ∈ n.Synapses, s.PostSynapticNeuron < ns.length

/-- Neuron `i` is evaluated (not skipped as refractory) when the loop reaches it in `ns`. -/
def evaluatedAt (ns : List Neuron) (i : Nat) : Bool :=
  match ns[i]? with
  | some neuron => !decide (neuron.RefractoryTimer > 0)
  | none => false

/-- Neuron `i` fires when the loop reaches it in `ns` with random source `r`. -/
def firesAt (ns : List Neuron) (i : Nat) (r : Rand) : Bool :=
  match ns[i]? with
  | some neuron =>
    !decide (neuron.RefractoryTimer > 0) &&
      decide (integrate neuron (r 0 % 3) ≥ neuron.Threshold)
  | none => false

/-- Neuron `i` is evaluated during the tick that starts in `g` with random source `r`. -/
def evaluatedInTick (g : Game) (r : Rand) (i : Nat) : Bool :=
  match updateLoop i g.Network.Neurons r with
  | some s => evaluatedAt s.1 i
  | none => false

/-- Neuron `i` fires during the tick that starts in `g` with random source `r`. -/
def firesInTick (g : Game) (r : Rand) (i : Nat) : Bool :=
  match updateLoop i g.Network.Neurons r with
  | some s => firesAt s.1 i s.2
  | none => false

/-- The weights of the synapses of `ss` whose target is neuron `j`, in order. -/
def weightsInto (ss : List Synapse) (j : Nat) : List Int :=
  (ss.filter (fun s => s.PostSynapticNeuron = j)).map (fun s => s.Weight)

/-- Adding weights one after the other to a `uint16` potential. -/
def addWeights (ws : List Int) (p : Nat) : Nat :=
  ws.foldl (fun q w => (q + toUint16 w) % 65536) p

/-- Neuron `m`, at index `j`, after the synapses `ss` have been propagated. -/
def bump (ss : List Synapse) (j : Nat) (m : Neuron) : Neuron :=
  { m with Potential := addWeights (weightsInto ss j) m.Potential }

/-- A neuron with its potential blanked: everything the propagation cannot touch. -/
def noPot (n : Neuron) : Neuron := { n with Potential := 0 }

/-- The neuron fires when evaluated with random source `r`. -/
def firesNow (n : Neuron) (r : Rand) : Bool :=
  !decide (n.RefractoryTimer > 0) && decide (integrate n (r 0 % 3) ≥ n.Threshold)

/-- The neuron right after the assignments of its own loop body, before any propagation. -/
def ownEffect (n : Neuron) (r : Rand) : Neuron :=
  if n.RefractoryTimer > 0 then { n with RefractoryTimer := n.RefractoryTimer - 1 }
  else if integrate n (r 0 % 3) ≥ n.Threshold then
    { n with IsFiring := true, Potential := n.ResetPotential, RefractoryTimer := 20 }
  else { n with Potential := integrate n (r 0 % 3), IsFiring := false }

/-- The synapses propagated by the loop body of the neuron. -/
def outgoing (n : Neuron) (r : Rand) : List Synapse :=
  if firesNow n r then n.Synapses else []

/-- The random source left by the loop body of the neuron. -/
def randAfter (n : Neuron) (r : Rand) : Rand :=
  if n.RefractoryTimer > 0 then r else fun k => r (k + 1)

/-- The fields of a neuron that are fixed at construction. -/
def statics (n : Neuron) : Nat × Nat × Nat × List Synapse × (F64 × F64) :=
  (n.Threshold, n.ResetPotential, n.PotentialDecay, n.Synapses, n.Position)

/-- What holds when the loop of `Game.Update`, started in `ns` with source `r`, has handled the
neurons of index below `k` and stands in state `s`. -/
def LoopInv (ns : List Neuron) (r : Rand) (k : Nat) (s : List Neuron × Rand) : Prop :=
  s.1.length = ns.length ∧
  (∀ j : Nat, s.1[j]?.map statics = ns[j]?.map statics) ∧
  (∀ j : Nat, k ≤ j → s.1[j]?.map noPot = ns[j]?.map noPot) ∧
  (∀ i, i < k → ∃ si ni, updateLoop i ns r = some si ∧ si.1[i]? = some ni ∧
    s.1[i]?.map noPot = some (noPot (ownEffect ni si.2)))

/-- The refractory timer of neuron `i`. -/
def timerAt (g : Game) (i : Nat) : Option Int :=
  g.Network.Neurons[i]?.map (fun n => n.RefractoryTimer)

/-- A neuron with the given potential, threshold, reset potential, decay and synapses, at rest
(timer 0, not firing). -/
def mkNeuron (potential threshold reset decay : Nat) (synapses : List Synapse) : Neuron :=
  { Potential := potential, Threshold := threshold, ResetPotential := reset,
    PotentialDecay := decay, Synapses := synapses,
    Position := (F64.ofInt 0, F64.ofInt 0), IsFiring := false, RefractoryTimer := 0 }

/-- Two neurons: neuron 0 is about to fire and has one synapse of weight 7 onto neuron 1. -/
def pairGame : Game :=
  { Network := { Neurons := [mkNeuron 60 50 10 1 [⟨1, 7⟩], mkNeuron 3 50 10 1 [⟨0, 5⟩]] },
    TickCount := 0 }

/-- One neuron about to fire whose only synapse, of weight 5, targets the neuron itself. -/
def selfGame : Game :=
  { Network := { Neurons := [mkNeuron 60 50 10 1 [⟨0, 5⟩]] }, TickCount := 0 }

/-- Neuron 0 is about to fire and has a synapse of weight 10 onto neuron 1, whose potential is
65530. -/
def wrapGame : Game :=
  { Network := { Neurons := [mkNeuron 60 50 10 1 [⟨1, 10⟩], mkNeuron 65530 50 10 1 []] },
    TickCount := 0 }

/-- One neuron about to fire whose synapse targets index 3, outside the network. -/
def strayGame : Game :=
  { Network := { Neurons := [mkNeuron 60 50 10 1 [⟨3, 5⟩]] }, TickCount := 0 }

/-- The one-neuron network of the example: threshold 50, reset potential 10, decay 1, no
synapses, potential 0, timer 0. -/
def exampleGame : Game :=
  { Network := { Neurons := [mkNeuron 0 50 10 1 []] }, TickCount := 0 }

/-- The potential of neuron `i` after `k` ticks. -/
def potentialAfter (k : Nat) (g : Game) (r : Rand) (i : Nat) : Option Nat :=
  (ticks k g r).bind (fun s => s.1.Network.Neurons[i]?.map (fun n => n.Potential))

/-- The timer of neuron `i` after `k` ticks. -/
def timerAfter (k : Nat) (g : Game) (r : Rand) (i : Nat) : Option Int :=
  (ticks k g r).bind (fun s => timerAt s.1 i)

/-- Whether neuron `i` fires during tick number `k` (counted from 1). -/
def firedOnTick (k : Nat) (g : Game) (r : Rand) (i : Nat) : Option Bool :=
  (ticks (k - 1) g r).map (fun s => firesInTick s.1 s.2 i)

/-- The function `expandIdx` of main.go: integer division by zero panics (`none`); the
quotient truncates toward zero and the remainder takes the sign of the dividend. -/
def expandIdx (index numCols : Int) : Option (Int × Int) :=
  if numCols = 0 then none else some (Int.tdiv index numCols, Int.tmod index numCols)

/-- The loop of `MakeSynapses` filling `k` synapses: each draws its target, then its weight. -/
def synapseLoop : Nat → Int → Rand → Option (List Synapse × Rand)
  | 0, _, r => some ([], r)
  | k + 1, networkSize, r =>
    match Intn networkSize r with
    | none => none
    | some (t, r1) =>
      match Intn 50 r1 with
      | none => none
      | some (w, r2) =>
        match synapseLoop k networkSize r2 with
        | none => none
        | some (rest, r3) =>
          some ({ PostSynapticNeuron := toUint64 t, Weight := toInt16 ((w : Int) + 1) } :: rest,
            r3)

/-- The function `MakeSynapses` of main.go. -/
def MakeSynapses (networkSize : Int) (r : Rand) : Option (List Synapse × Rand) :=
  match Intn 3 r with
  | none => none
  | some (v, r1) => synapseLoop (v + 1) networkSize r1

/-- The function `Neuron.InitNeuron` of main.go. -/
def InitNeuron (n : Neuron) (networkSize : Int) (r : Rand) : Option (Neuron × Rand) :=
  match Intn 100 r with
  | none => none
  | some (t, r1) =>
    match Intn 50 r1 with
    | none => none
    | some (p, r2) =>
      match Intn 5 r2 with
      | none => none
      | some (d, r3) =>
        match MakeSynapses networkSize r3 with
        | none => none
        | some (synapses, r4) =>
          some ({ n with
            Potential := 0, Threshold := toUint16 ((t : Int) + 50),
            ResetPotential := toUint16 p, PotentialDecay := toUint16 ((d : Int) + 1),
            Synapses := synapses, IsFiring := false, RefractoryTimer := 0 }, r4)

/-- The zero value `Neuron{}`. -/
def zeroNeuron : Neuron :=
  { Potential := 0, Threshold := 0, ResetPotential := 0, PotentialDecay := 0, Synapses := [],
    Position := (F64.ofInt 0, F64.ofInt 0), IsFiring := false, RefractoryTimer := 0 }

/-- The function `MakeNeuron` of main.go. -/
def MakeNeuron (networkSize : Int) (r : Rand) : Option (Neuron × Rand) :=
  InitNeuron zeroNeuron networkSize r

/-- The first loop of `InitNetwork`, `k` iterations left: make a neuron and append it. -/
def makeLoop : Nat → Int → List Neuron → Rand → Option (List Neuron × Rand)
  | 0, _, ns, r => some (ns, r)
  | k + 1, networkSize, ns, r =>
    match MakeNeuron networkSize r with
    | none => none
    | some (neuron, r1) => makeLoop k networkSize (ns ++ [neuron]) r1

/-- The second loop of `InitNetwork`, from index `i` on: set the position of each neuron. -/
def setPositions (xSize ySize : Int) : Nat → List Neuron → Option (List Neuron)
  | _, [] => some []
  | i, neuron :: rest =>
    match expandIdx i xSize with
    | none => none
    | some (row, col) =>
      (setPositions xSize ySize (i + 1) rest).map (fun tl =>
        { neuron with
          Position :=
            (F64.add (F64.mul (F64.ofInt col) (F64.div (F64.ofInt 800) (F64.ofInt xSize)))
               (F64.ofInt 50),
             F64.add (F64.mul (F64.ofInt row) (F64.div (F64.ofInt 600) (F64.ofInt ySize)))
               (F64.ofInt 50)) } :: tl)

/-- The function `Network.InitNetwork` of main.go, on the receiver `n`; `none` is a run-time
panic. -/
def InitNetwork (n : Network) (networkSize xSize ySize : Int) (r : Rand) :
    Option (Network × Rand) :=
  match makeLoop networkSize.toNat networkSize n.Neurons r with
  | none => none
  | some (ns, r1) =>
    (setPositions xSize ySize 0 ns).map (fun ns1 => ({ Neurons := ns1 }, r1))

/-- The low `k` bits of `x` with bit `i` placed at position `3i`. -/
def spreadSum (k x : Nat) : Nat := ∑ i in Finset.range k, bitAt x i * 8 ^ i

/-- The ranges `InitNeuron` gives a new neuron: potential 0, threshold in `[50, 150)`, reset
potential in `[0, 50)`, decay in `[1, 5]`, not firing, timer 0. -/
def Fresh (n : Neuron) : Prop :=
  n.Potential = 0 ∧ 50 ≤ n.Threshold ∧ n.Threshold ≤ 149 ∧ n.ResetPotential ≤ 49 ∧
  1 ≤ n.PotentialDecay ∧ n.PotentialDecay ≤ 5 ∧ n.IsFiring = false ∧ n.RefractoryTimer = 0

/-- Every refractory timer of the network lies in `0 .. 20`. -/
def TimersInRange (ns : List Neuron) : Prop :=
  ∀ n ∈ ns, 0 ≤ n.RefractoryTimer ∧ n.RefractoryTimer ≤ 20

/-- The flag `IsFiring` of neuron `i` after `k` ticks. -/
def isFiringAfter (k : Nat) (g : Game) (r : Rand) (i : Nat) : Option Bool :=
  (ticks k g r).bind (fun s => s.1.Network.Neurons[i]?.map (fun n => n.IsFiring))

/-- Neuron 0 is about to fire and its synapse of weight 45 lifts neuron 1 over its
threshold. -/
def cascadeGame : Game :=
  { Network := { Neurons := [mkNeuron 60 50 10 1 [⟨1, 45⟩], mkNeuron 10 50 10 1 []] },
    TickCount := 0 }

/-- The network of `cascadeGame` with the synapses of neuron 0 removed. -/
def cascadeCutGame : Game :=
  { Network := { Neurons := [mkNeuron 60 50 10 1 [], mkNeuron 10 50 10 1 []] },
    TickCount := 0 }

/-- The firing neuron has the higher index: neuron 1 is about to fire and its synapse of
weight 45 targets neuron 0. -/
def backwardGame : Game :=
  { Network := { Neurons := [mkNeuron 10 50 10 1 [], mkNeuron 60 50 10 1 [⟨0, 45⟩]] },
    TickCount := 0 }

/-- The potential of neuron `j` when the loop of the first tick has handled the neurons of
index below `k`. -/
def potentialInTick (k : Nat) (g : Game) (r : Rand) (j : Nat) : Option Nat :=
  (updateLoop k g.Network.Neurons r).bind (fun s => s.1[j]?.map (fun n => n.Potential))

/-- The network of `pairGame` with the tick counter at the largest 64-bit `int`. -/
def maxTickGame : Game :=
  { Network := pairGame.Network, TickCount := 9223372036854775807 }

/-- A random stream for building a two-neuron network: neuron 0 gets threshold 50, reset 0,
decay 1 and one synapse of weight 10 onto neuron 1; neuron 1 gets threshold 50, reset 0, decay
1 and one synapse of weight 1 onto neuron 0. -/
def freshStream : Rand := fun k => [0, 0, 0, 0, 1, 9].getD k 0

/-- The game holding the network that `InitNetwork(2, 2, 1)` builds from `freshStream`. -/
def freshPairGame : Option Game :=
  (InitNetwork { Neurons := [] } 2 2 1 freshStream).map
    (fun s => { Network := s.1, TickCount := 0 })

/-- Neuron `i`, reached by the loop of the tick in state `si`, takes the firing branch of the
loop body: right after its step and after the whole tick `IsFiring` is true and the timer is
20. -/
def FiresInStep (g : Game) (r : Rand) (i : Nat) (si : List Neuron × Rand) : Prop :=
  ∃ s1 n1, stepNeuron si.1 i si.2 = some s1 ∧
    updateLoop (i + 1) g.Network.Neurons r = some s1 ∧ s1.1[i]? = some n1 ∧
    n1.IsFiring = true ∧ n1.RefractoryTimer = 20 ∧
    ∃ o n2, Update g r = some o ∧ o.game.Network.Neurons[i]? = some n2 ∧
      n2.IsFiring = true ∧ n2.RefractoryTimer = 20

/-! Theorems. -/

theorem SBit.reads_join_or {f : Nat → Bool} {a b : SBit} {x y : Bool}
    (ha : a.Reads f x) (hb : b.Reads f y) : (a.join b).Reads f (x || y) := by
  cases a <;> cases b <;> simp_all [SBit.Reads, SBit.join]

theorem SBit.reads_join_xor {f : Nat → Bool} {a b : SBit} {x y : Bool}
    (ha : a.Reads f x) (hb : b.Reads f y) : (a.join b).Reads f (xor x y) := by
  cases a <;> cases b <;> simp_all [SBit.Reads, SBit.join]

theorem SBit.reads_mask {f : Nat → Bool} {a : SBit} {x : Bool} (c : Bool)
    (ha : a.Reads f x) : (a.mask c).Reads f (x && c) := by
  cases c <;> simp_all [SBit.Reads, SBit.mask]

theorem SWord.reads_input (n : Nat) : SWord.input.Reads n.testBit n := by
  intro j; simp [SWord.input, SBit.Reads]

theorem SWord.reads_and {f : Nat → Bool} {s : SWord} {x : Nat} (m : Nat)
    (h : s.Reads f x) : (s.and m).Reads f (x &&& m) := by
  intro j
  rw [Nat.testBit_and]
  exact SBit.reads_mask _ (h j)

theorem SWord.reads_orShl {f : Nat → Bool} {s : SWord} {x : Nat} (k : Nat)
    (h : s.Reads f x) : (s.orShl k).Reads f (x ||| (x <<< k) % 2 ^ 64) := by
  intro j
  rw [Nat.testBit_or, Nat.testBit_mod_two_pow, Nat.testBit_shiftLeft]
  refine SBit.reads_join_or (h j) ?_
  by_cases h1 : j < 64 <;> by_cases h2 : k ≤ j <;> simp [h1, h2, SBit.Reads]
  · exact h (j - k)

theorem SWord.reads_xorShr {f : Nat → Bool} {s : SWord} {x : Nat} (k : Nat)
    (h : s.Reads f x) : (s.xorShr k).Reads f (x ^^^ (x >>> k)) := by
  intro j
  rw [Nat.testBit_xor, Nat.testBit_shiftRight, Nat.add_comm]
  exact SBit.reads_join_xor (h j) (h (j + k))

theorem symSpread_reads (n : Nat) : symSpread.Reads n.testBit (spreadBits n) := by
  unfold symSpread spreadBits
  exact SWord.reads_and _ (SWord.reads_orShl _ (SWord.reads_and _ (SWord.reads_orShl _
    (SWord.reads_and _ (SWord.reads_orShl _ (SWord.reads_and _ (SWord.reads_orShl _
    (SWord.reads_and _ (SWord.reads_orShl _ (SWord.reads_and _ (SWord.reads_input n)))))))))))

theorem symCompact_reads (n : Nat) : symCompact.Reads n.testBit (deinterleaveBits64 n) := by
  unfold symCompact deinterleaveBits64
  exact SWord.reads_and _ (SWord.reads_xorShr _ (SWord.reads_and _ (SWord.reads_xorShr _
    (SWord.reads_and _ (SWord.reads_xorShr _ (SWord.reads_and _ (SWord.reads_xorShr _
    (SWord.reads_and _ (SWord.reads_xorShr _ (SWord.reads_and _ (SWord.reads_input n)))))))))))

theorem symSpread_table :
    ∀ j < 64, symSpread j = if j < 63 ∧ j % 3 = 0 then SBit.bit (j / 3) else SBit.zero := by
  decide

theorem symCompact_table : ∀ i < 21, symCompact i = SBit.bit (3 * i) := by
  decide

theorem spreadBits_lt (n : Nat) : spreadBits n < 2 ^ 61 := by
  unfold spreadBits
  exact lt_of_le_of_lt Nat.and_le_right (by norm_num)

theorem deinterleaveBits64_lt (n : Nat) : deinterleaveBits64 n < 2 ^ 21 := by
  unfold deinterleaveBits64
  exact lt_of_le_of_lt Nat.and_le_right (by norm_num)

theorem testBit_eq_false_of_lt {n k j : Nat} (h : n < 2 ^ k) (hj : k ≤ j) :
    n.testBit j = false :=
  Nat.testBit_lt_two_pow (lt_of_lt_of_le h (Nat.pow_le_pow_right (by norm_num) hj))

theorem spreadBits_testBit (n j : Nat) :
    (spreadBits n).testBit j = (decide (j < 63) && decide (j % 3 = 0) && n.testBit (j / 3)) := by
  by_cases hj : j < 64
  · have h := symSpread_reads n j
    rw [symSpread_table j hj] at h
    by_cases hc : j < 63 ∧ j % 3 = 0
    · rw [if_pos hc] at h
      simpa [SBit.Reads, hc.1, hc.2] using h
    · rw [if_neg hc] at h
      have h' : (spreadBits n).testBit j = false := h
      rw [h']
      by_cases h1 : j < 63 <;> simp_all
  · rw [testBit_eq_false_of_lt (spreadBits_lt n) (by omega)]
    have : ¬ j < 63 := by omega
    simp [this]

theorem deinterleaveBits64_testBit (n i : Nat) :
    (deinterleaveBits64 n).testBit i = (decide (i < 21) && n.testBit (3 * i)) := by
  by_cases hi : i < 21
  · have h := symCompact_reads n i
    rw [symCompact_table i hi] at h
    simpa [SBit.Reads, hi] using h
  · rw [testBit_eq_false_of_lt (deinterleaveBits64_lt n) (by omega)]
    simp [hi]

theorem EncodeMorton3D_testBit (x y z j : Nat) :
    (EncodeMorton3D x y z).testBit j =
      (decide (j < 63) &&
        (if j % 3 = 0 then x.testBit (j / 3)
         else if j % 3 = 1 then y.testBit (j / 3) else z.testBit (j / 3))) := by
  unfold EncodeMorton3D interleaveBits64
  simp only [Nat.testBit_or, Nat.testBit_mod_two_pow, Nat.testBit_shiftLeft, spreadBits_testBit]
  have h3 : j % 3 = 0 ∨ j % 3 = 1 ∨ j % 3 = 2 := by omega
  by_cases hj : j < 63
  · rcases h3 with h | h | h
    · have a1 : (decide (j ≥ 1) && (decide (j - 1 < 63) && decide ((j - 1) % 3 = 0) &&
          y.testBit ((j - 1) / 3))) = false := by
        have : ¬ (j ≥ 1 ∧ (j - 1) % 3 = 0) := by omega
        by_cases b : j ≥ 1 <;> simp_all
      have a2 : (decide (j ≥ 2) && (decide (j - 2 < 63) && decide ((j - 2) % 3 = 0) &&
          z.testBit ((j - 2) / 3))) = false := by
        have : ¬ (j ≥ 2 ∧ (j - 2) % 3 = 0) := by omega
        by_cases b : j ≥ 2 <;> simp_all
      rw [a1, a2]
      simp [hj, h]
    · have e : (j - 1) / 3 = j / 3 := by omega
      have a0 : (j - 1) % 3 = 0 := by omega
      have a2 : (decide (j ≥ 2) && (decide (j - 2 < 63) && decide ((j - 2) % 3 = 0) &&
          z.testBit ((j - 2) / 3))) = false := by
        have : ¬ (j ≥ 2 ∧ (j - 2) % 3 = 0) := by omega
        by_cases b : j ≥ 2 <;> simp_all
      have b1 : j ≥ 1 := by omega
      have b3 : j - 1 < 63 := by omega
      have b4 : j < 64 := by omega
      rw [a2, e]
      simp [hj, h, a0, b1, b3, b4]
    · have e : (j - 2) / 3 = j / 3 := by omega
      have a0 : (j - 2) % 3 = 0 := by omega
      have a1 : ¬ ((j - 1) % 3 = 0) := by omega
      have b2 : j ≥ 2 := by omega
      have b3 : j - 2 < 63 := by omega
      have b4 : j < 64 := by omega
      rw [e]
      simp [hj, h, a0, a1, b2, b3, b4]
  · have c1 : (decide (j < 64) && (decide (j ≥ 1) && (decide (j - 1 < 63) &&
        decide ((j - 1) % 3 = 0) && y.testBit ((j - 1) / 3)))) = false := by
      have : ¬ (j < 64 ∧ (j - 1) % 3 = 0) := by omega
      by_cases b : j < 64 <;> simp_all
    have c2 : (decide (j < 64) && (decide (j ≥ 2) && (decide (j - 2 < 63) &&
        decide ((j - 2) % 3 = 0) && z.testBit ((j - 2) / 3)))) = false := by
      have : ¬ (j < 64 ∧ (j - 2) % 3 = 0) := by omega
      by_cases b : j < 64 <;> simp_all
    rw [c1, c2]
    simp [hj]

theorem eq_sum_bits (k : Nat) : ∀ n : Nat, n < 2 ^ k →
    n = ∑ j in Finset.range k, (n.testBit j).toNat * 2 ^ j := by
  induction k with
  | zero => intro n h; simp at h; simp [h]
  | succ k ih =>
    intro n h
    have h2 : n / 2 < 2 ^ k := by
      rw [pow_succ] at h
      exact Nat.div_lt_of_lt_mul (by rwa [Nat.mul_comm] at h)
    have e := ih (n / 2) h2
    rw [Finset.sum_range_succ']
    simp only [Nat.testBit_succ, pow_succ, ← Nat.mul_assoc, ← Finset.sum_mul]
    rw [← e, Nat.testBit_zero]
    have : n % 2 = 0 ∨ n % 2 = 1 := by omega
    rcases this with h0 | h0 <;> simp [h0] <;> omega

theorem sum_range_three (g : Nat → Nat) (n : Nat) :
    ∑ j in Finset.range (3 * n), g j =
      ∑ i in Finset.range n, (g (3 * i) + g (3 * i + 1) + g (3 * i + 2)) := by
  induction n with
  | zero => simp
  | succ n ih =>
    rw [show 3 * (n + 1) = 3 * n + 1 + 1 + 1 by ring, Finset.sum_range_succ,
      Finset.sum_range_succ, Finset.sum_range_succ, Finset.sum_range_succ, ih]
    ring

theorem EncodeMorton3D_lt (x y z : Nat) : EncodeMorton3D x y z < 2 ^ 63 := by
  apply Nat.lt_pow_two_of_testBit
  intro j hj
  rw [EncodeMorton3D_testBit]
  have : ¬ j < 63 := by omega
  simp [this]

theorem EncodeMorton3D_eq_sum (x y z : Nat) :
    EncodeMorton3D x y z = ∑ i in Finset.range 21,
      (bitAt x i * 2 ^ (3 * i) + bitAt y i * 2 ^ (3 * i + 1) + bitAt z i * 2 ^ (3 * i + 2)) := by
  have h := eq_sum_bits 63 _ (EncodeMorton3D_lt x y z)
  rw [show (63 : Nat) = 3 * 21 by norm_num, sum_range_three] at h
  rw [h]
  apply Finset.sum_congr rfl
  intro i hi
  have hi' : i < 21 := Finset.mem_range.mp hi
  have a0 : 3 * i < 63 := by omega
  have a1 : 3 * i + 1 < 63 := by omega
  have a2 : 3 * i + 2 < 63 := by omega
  have m0 : 3 * i % 3 = 0 := by omega
  have m1 : (3 * i + 1) % 3 = 1 := by omega
  have m2 : (3 * i + 2) % 3 = 2 := by omega
  have d0 : 3 * i / 3 = i := by omega
  have d1 : (3 * i + 1) / 3 = i := by omega
  have d2 : (3 * i + 2) / 3 = i := by omega
  simp only [EncodeMorton3D_testBit, a0, a1, a2, m0, m1, m2, d0, d1, d2, bitAt]
  simp

theorem deinterleave_encode (x y z : Nat) :
    deinterleaveBits64 (EncodeMorton3D x y z) = x &&& 0x1FFFFF ∧
    deinterleaveBits64 (EncodeMorton3D x y z >>> 1) = y &&& 0x1FFFFF ∧
    deinterleaveBits64 (EncodeMorton3D x y z >>> 2) = z &&& 0x1FFFFF := by
  have hm : ∀ i, Nat.testBit 0x1FFFFF i = decide (i < 21) := by
    intro i
    rw [show (0x1FFFFF : Nat) = 2 ^ 21 - 1 by norm_num, Nat.testBit_two_pow_sub_one]
  refine ⟨?_, ?_, ?_⟩ <;>
  · apply Nat.eq_of_testBit_eq
    intro i
    rw [deinterleaveBits64_testBit, Nat.testBit_and, hm]
    by_cases hi : i < 21
    · have a0 : 3 * i < 63 := by omega
      have a1 : 1 + 3 * i < 63 := by omega
      have a2 : 2 + 3 * i < 63 := by omega
      have m0 : 3 * i % 3 = 0 := by omega
      have m1 : (1 + 3 * i) % 3 = 1 := by omega
      have m2 : (2 + 3 * i) % 3 = 2 := by omega
      have d0 : 3 * i / 3 = i := by omega
      have d1 : (1 + 3 * i) / 3 = i := by omega
      have d2 : (2 + 3 * i) / 3 = i := by omega
      simp [Nat.testBit_shiftRight, EncodeMorton3D_testBit, hi, a0, a1, a2, m0, m1, m2, d0, d1, d2]
    · simp [hi]

theorem and_mask21_of_lt {x : Nat} (h : x < 2 ^ 21) : x &&& 0x1FFFFF = x := by
  rw [show (0x1FFFFF : Nat) = 2 ^ 21 - 1 by norm_num, Nat.and_pow_two_sub_one_eq_mod]
  exact Nat.mod_eq_of_lt h

theorem DecodeMorton3D_EncodeMorton3D (x y z : Nat) :
    DecodeMorton3D (EncodeMorton3D x y z) = (x &&& 0x1FFFFF, y &&& 0x1FFFFF, z &&& 0x1FFFFF) := by
  obtain ⟨h1, h2, h3⟩ := deinterleave_encode x y z
  have b : ∀ n, deinterleaveBits64 n % 2 ^ 32 = deinterleaveBits64 n := fun n =>
    Nat.mod_eq_of_lt (lt_trans (deinterleaveBits64_lt n) (by norm_num))
  simp only [DecodeMorton3D]
  rw [b, b, b, h1, h2, h3]

/-- C1: decoding a Morton encoding gives back the coordinates masked to 21 bits, for
`DecodeMorton3D`/`EncodeMorton3D` and for `Decode3D`/`Encode3D` with method "morton"; on
coordinates below `2^21` the round trip is the identity. -/
theorem C1_decode_encode_roundtrip (x y z : Nat)
    (_hx : x < 2 ^ 32) (_hy : y < 2 ^ 32) (_hz : z < 2 ^ 32) :
    DecodeMorton3D (EncodeMorton3D x y z) = (x &&& 0x1FFFFF, y &&& 0x1FFFFF, z &&& 0x1FFFFF) ∧
    ((Encode3D x y z "morton").bind (fun m => Decode3D m "morton")) =
      some (x &&& 0x1FFFFF, y &&& 0x1FFFFF, z &&& 0x1FFFFF) ∧
    (x < 2 ^ 21 → y < 2 ^ 21 → z < 2 ^ 21 →
      DecodeMorton3D (EncodeMorton3D x y z) = (x, y, z) ∧
      ((Encode3D x y z "morton").bind (fun m => Decode3D m "morton")) = some (x, y, z)) := by
  have h := DecodeMorton3D_EncodeMorton3D x y z
  have e : ((Encode3D x y z "morton").bind (fun m => Decode3D m "morton")) =
      some (DecodeMorton3D (EncodeMorton3D x y z)) := by
    simp [Encode3D, Decode3D]
  refine ⟨h, by rw [e, h], ?_⟩
  intro h1 h2 h3
  rw [e, h, and_mask21_of_lt h1, and_mask21_of_lt h2, and_mask21_of_lt h3]
  exact ⟨rfl, rfl⟩

theorem C1_decode_encode_roundtrip_witness :
    ((5 : Nat) < 2 ^ 32 ∧ (7 : Nat) < 2 ^ 32 ∧ (2097151 : Nat) < 2 ^ 32) ∧
    DecodeMorton3D (EncodeMorton3D 5 7 2097151) = (5, 7, 2097151) ∧
    ((Encode3D 5 7 2097151 "morton").bind (fun m => Decode3D m "morton")) =
      some (5, 7, 2097151) :=
  ⟨by norm_num,
   (C1_decode_encode_roundtrip 5 7 2097151 (by norm_num) (by norm_num) (by norm_num)).2.2
     (by norm_num) (by norm_num) (by norm_num)⟩

/-- C5: bit `3i`, `3i+1`, `3i+2` of the Morton index is bit `i` of x, y, z for every
`i < 21`, bit 63 is clear, and the index is the sum of the coordinate bits placed at those
positions, a value below `2^63`. -/
theorem C5_morton_bit_layout (x y z : Nat)
    (_hx : x < 2 ^ 32) (_hy : y < 2 ^ 32) (_hz : z < 2 ^ 32) :
    (∀ i, i < 21 →
      (EncodeMorton3D x y z).testBit (3 * i) = x.testBit i ∧
      (EncodeMorton3D x y z).testBit (3 * i + 1) = y.testBit i ∧
      (EncodeMorton3D x y z).testBit (3 * i + 2) = z.testBit i) ∧
    (EncodeMorton3D x y z).testBit 63 = false ∧
    EncodeMorton3D x y z = ∑ i in Finset.range 21,
      (bitAt x i * 2 ^ (3 * i) + bitAt y i * 2 ^ (3 * i + 1) + bitAt z i * 2 ^ (3 * i + 2)) ∧
    EncodeMorton3D x y z < 2 ^ 63 := by
  refine ⟨?_, ?_, EncodeMorton3D_eq_sum x y z, EncodeMorton3D_lt x y z⟩
  · intro i hi
    have a0 : 3 * i < 63 := by omega
    have a1 : 3 * i + 1 < 63 := by omega
    have a2 : 3 * i + 2 < 63 := by omega
    have m0 : 3 * i % 3 = 0 := by omega
    have m1 : (3 * i + 1) % 3 = 1 := by omega
    have m2 : (3 * i + 2) % 3 = 2 := by omega
    have d0 : 3 * i / 3 = i := by omega
    have d1 : (3 * i + 1) / 3 = i := by omega
    have d2 : (3 * i + 2) / 3 = i := by omega
    simp [EncodeMorton3D_testBit, a0, a1, a2, m0, m1, m2, d0, d1, d2]
  · simp [EncodeMorton3D_testBit]

theorem C5_morton_bit_layout_witness :
    ((5 : Nat) < 2 ^ 32 ∧ (3 : Nat) < 2 ^ 32 ∧ (4294967295 : Nat) < 2 ^ 32) ∧
    (EncodeMorton3D 5 3 4294967295).testBit 63 = false ∧
    EncodeMorton3D 5 3 4294967295 < 2 ^ 63 :=
  ⟨by norm_num,
   (C5_morton_bit_layout 5 3 4294967295 (by norm_num) (by norm_num) (by norm_num)).2.1,
   (C5_morton_bit_layout 5 3 4294967295 (by norm_num) (by norm_num) (by norm_num)).2.2.2⟩

/-- C6 (as stated, refuted): `Encode3D(5, 0, 0)` with method "morton" is not 1. -/
theorem C6_encode_five_not_one : Encode3D 5 0 0 "morton" ≠ some 1 := by
  simp [Encode3D]
  decide

/-- C6 (amended): the coordinate 5 has bits 0 and 2 set, so `Encode3D` with method "morton"
gives 65, 130 and 260 for 5 in the x, y and z channel; the single-bit coordinate 1 gives 1, 2
and 4. -/
theorem C6_channel_placement :
    Encode3D 5 0 0 "morton" = some 65 ∧ Encode3D 0 5 0 "morton" = some 130 ∧
    Encode3D 0 0 5 "morton" = some 260 ∧
    EncodeMorton3D 5 0 0 = 65 ∧ EncodeMorton3D 0 5 0 = 130 ∧ EncodeMorton3D 0 0 5 = 260 ∧
    Encode3D 1 0 0 "morton" = some 1 ∧ Encode3D 0 1 0 "morton" = some 2 ∧
    Encode3D 0 0 1 "morton" = some 4 := by
  simp [Encode3D]
  decide

theorem encode_decode_testBit (m j : Nat) :
    (EncodeMorton3D (DecodeMorton3D m).1 (DecodeMorton3D m).2.1 (DecodeMorton3D m).2.2).testBit j
      = (decide (j < 63) && m.testBit j) := by
  have b : ∀ n, deinterleaveBits64 n % 2 ^ 32 = deinterleaveBits64 n := fun n =>
    Nat.mod_eq_of_lt (lt_trans (deinterleaveBits64_lt n) (by norm_num))
  simp only [EncodeMorton3D_testBit, DecodeMorton3D, b, deinterleaveBits64_testBit,
    Nat.testBit_shiftRight]
  by_cases hj : j < 63
  · have h21 : j / 3 < 21 := by omega
    have h3 : j % 3 = 0 ∨ j % 3 = 1 ∨ j % 3 = 2 := by omega
    rcases h3 with h | h | h
    · have e : 3 * (j / 3) = j := by omega
      simp [hj, h, h21, e]
    · have e : 1 + 3 * (j / 3) = j := by omega
      simp [hj, h, h21, e]
    · have e : 2 + 3 * (j / 3) = j := by omega
      simp [hj, h, h21, e]
  · simp [hj]

/-- C7: encoding the decoded triple of a 64-bit index `m` gives `m` with bit 63 cleared, hence
`m` itself when `m < 2^63`. -/
theorem C7_encode_decode (m : Nat) (_hm : m < 2 ^ 64) :
    EncodeMorton3D (DecodeMorton3D m).1 (DecodeMorton3D m).2.1 (DecodeMorton3D m).2.2
      = m &&& 0x7FFFFFFFFFFFFFFF ∧
    (m < 2 ^ 63 →
      EncodeMorton3D (DecodeMorton3D m).1 (DecodeMorton3D m).2.1 (DecodeMorton3D m).2.2 = m) := by
  have h : EncodeMorton3D (DecodeMorton3D m).1 (DecodeMorton3D m).2.1 (DecodeMorton3D m).2.2
      = m &&& 0x7FFFFFFFFFFFFFFF := by
    apply Nat.eq_of_testBit_eq
    intro j
    rw [encode_decode_testBit, Nat.testBit_and,
      show (0x7FFFFFFFFFFFFFFF : Nat) = 2 ^ 63 - 1 by norm_num, Nat.testBit_two_pow_sub_one,
      Bool.and_comm]
  refine ⟨h, fun h63 => ?_⟩
  rw [h, show (0x7FFFFFFFFFFFFFFF : Nat) = 2 ^ 63 - 1 by norm_num,
    Nat.and_pow_two_sub_one_eq_mod]
  exact Nat.mod_eq_of_lt h63

theorem C7_encode_decode_witness :
    ((1234567890123456789 : Nat) < 2 ^ 64 ∧ (1234567890123456789 : Nat) < 2 ^ 63) ∧
    EncodeMorton3D (DecodeMorton3D 1234567890123456789).1
      (DecodeMorton3D 1234567890123456789).2.1 (DecodeMorton3D 1234567890123456789).2.2
      = 1234567890123456789 :=
  ⟨by norm_num,
   (C7_encode_decode 1234567890123456789 (by norm_num)).2 (by norm_num)⟩

theorem propagate_isSome (ss : List Synapse) : ∀ ns : List Neuron,
    (∀ s ∈ ss, s.PostSynapticNeuron < ns.length) → ∃ ns1, propagate ss ns = some ns1 := by
  induction ss with
  | nil => intro ns _; exact ⟨ns, rfl⟩
  | cons s rest ih =>
    intro ns h
    have hs : s.PostSynapticNeuron < ns.length := h s (List.mem_cons_self _ _)
    obtain ⟨ns1, h1⟩ := ih (ns.set s.PostSynapticNeuron
        { ns[s.PostSynapticNeuron] with
          Potential := (ns[s.PostSynapticNeuron].Potential + toUint16 s.Weight) % 65536 })
      (by
        intro t ht
        rw [List.length_set]
        exact h t (List.mem_cons_of_mem _ ht))
    refine ⟨ns1, ?_⟩
    simp only [propagate, List.getElem?_eq_getElem hs]
    exact h1

theorem propagate_spec (ss : List Synapse) : ∀ ns ns1 : List Neuron,
    propagate ss ns = some ns1 →
      ns1.length = ns.length ∧ ∀ j, ns1[j]? = ns[j]?.map (bump ss j) := by
  induction ss with
  | nil =>
    intro ns ns1 h
    simp only [propagate, Option.some.injEq] at h
    subst h
    refine ⟨rfl, fun j => ?_⟩
    cases hj : ns[j]? <;> simp [bump, weightsInto, addWeights]
  | cons s rest ih =>
    intro ns ns1 h
    simp only [propagate] at h
    cases hp : ns[s.PostSynapticNeuron]? with
    | none => simp [hp] at h
    | some post =>
      simp only [hp] at h
      obtain ⟨hl, hj⟩ := ih _ _ h
      rw [List.length_set] at hl
      refine ⟨hl, fun j => ?_⟩
      rw [hj j]
      by_cases e : s.PostSynapticNeuron = j
      · subst e
        have hlt : s.PostSynapticNeuron < ns.length := by
          by_contra hc
          rw [List.getElem?_eq_none (by omega)] at hp
          exact absurd hp (by simp)
        rw [List.getElem?_set, if_pos rfl, if_pos hlt, hp]
        simp [bump, weightsInto, addWeights, List.filter_cons]
      · rw [List.getElem?_set_ne e]
        cases hn : ns[j]? with
        | none => rfl
        | some m => simp [bump, weightsInto, List.filter_cons, e]

theorem stepNeuron_eq {ns : List Neuron} {i : Nat} {n : Neuron} (r : Rand)
    (h : ns[i]? = some n) :
    stepNeuron ns i r =
      (propagate (outgoing n r) (ns.set i (ownEffect n r))).map
        (fun ns1 => (ns1, randAfter n r)) := by
  unfold stepNeuron
  rw [h]
  by_cases ht : n.RefractoryTimer > 0
  · simp [ht, ownEffect, outgoing, firesNow, randAfter, propagate]
  · by_cases hf : integrate n (r 0 % 3) ≥ n.Threshold
    · simp [ht, hf, ownEffect, outgoing, firesNow, randAfter, Intn]
    · simp [ht, hf, ownEffect, outgoing, firesNow, randAfter, Intn, propagate]

theorem outgoing_subset (n : Neuron) (r : Rand) : ∀ s ∈ outgoing n r, s ∈ n.Synapses := by
  intro s hs
  unfold outgoing at hs
  split at hs
  · exact hs
  · simp at hs

theorem stepNeuron_isSome {ns : List Neuron} {i : Nat} {n : Neuron} (r : Rand)
    (h : ns[i]? = some n) (hs : ∀ s ∈ n.Synapses, s.PostSynapticNeuron < ns.length) :
    ∃ s, stepNeuron ns i r = some s := by
  rw [stepNeuron_eq r h]
  obtain ⟨ns1, h1⟩ := propagate_isSome (outgoing n r) (ns.set i (ownEffect n r))
    (by
      intro s hmem
      rw [List.length_set]
      exact hs s (outgoing_subset n r s hmem))
  exact ⟨(ns1, randAfter n r), by rw [h1]; rfl⟩

theorem stepNeuron_spec {ns : List Neuron} {i : Nat} {n : Neuron} {r : Rand}
    {s : List Neuron × Rand} (h : ns[i]? = some n) (hs : stepNeuron ns i r = some s) :
    s.1.length = ns.length ∧ s.2 = randAfter n r ∧
      ∀ j, s.1[j]? = ((ns.set i (ownEffect n r))[j]?).map (bump (outgoing n r) j) := by
  rw [stepNeuron_eq r h] at hs
  cases hp : propagate (outgoing n r) (ns.set i (ownEffect n r)) with
  | none => simp [hp] at hs
  | some ns1 =>
    simp only [hp, Option.map_some', Option.some.injEq] at hs
    subst hs
    obtain ⟨hl, hj⟩ := propagate_spec _ _ _ hp
    rw [List.length_set] at hl
    exact ⟨hl, rfl, hj⟩

theorem noPot_bump (ss : List Synapse) (j : Nat) (m : Neuron) : noPot (bump ss j m) = noPot m :=
  rfl

theorem statics_bump (ss : List Synapse) (j : Nat) (m : Neuron) :
    statics (bump ss j m) = statics m := rfl

theorem statics_ownEffect (n : Neuron) (r : Rand) : statics (ownEffect n r) = statics n := by
  unfold ownEffect
  split
  · rfl
  · split <;> rfl

theorem statics_noPot (n : Neuron) : statics (noPot n) = statics n := rfl

theorem stepNeuron_other {ns : List Neuron} {i : Nat} {n : Neuron} {r : Rand}
    {s : List Neuron × Rand} (h : ns[i]? = some n) (hs : stepNeuron ns i r = some s)
    {j : Nat} (hj : i ≠ j) : s.1[j]?.map noPot = ns[j]?.map noPot := by
  obtain ⟨_, _, h3⟩ := stepNeuron_spec h hs
  rw [h3 j, List.getElem?_set_ne hj]
  cases ns[j]? <;> simp [noPot_bump]

theorem stepNeuron_self {ns : List Neuron} {i : Nat} {n : Neuron} {r : Rand}
    {s : List Neuron × Rand} (h : ns[i]? = some n) (hs : stepNeuron ns i r = some s) :
    s.1[i]? = some (bump (outgoing n r) i (ownEffect n r)) := by
  obtain ⟨_, _, h3⟩ := stepNeuron_spec h hs
  have hlt : i < ns.length := by
    by_contra hc
    rw [List.getElem?_eq_none (by omega)] at h
    exact absurd h (by simp)
  rw [h3 i, List.getElem?_set, if_pos rfl, if_pos hlt]
  rfl

theorem stepNeuron_statics {ns : List Neuron} {i : Nat} {n : Neuron} {r : Rand}
    {s : List Neuron × Rand} (h : ns[i]? = some n) (hs : stepNeuron ns i r = some s)
    (j : Nat) : s.1[j]?.map statics = ns[j]?.map statics := by
  by_cases hj : i = j
  · subst hj
    rw [stepNeuron_self h hs, h]
    simp [statics_bump, statics_ownEffect]
  · have := congrArg (Option.map statics) (stepNeuron_other h hs hj)
    simpa [Option.map_map, Function.comp_def, statics_noPot] using this

theorem wellFormed_get {ns : List Neuron} (h : WellFormed ns) {j : Nat} {n : Neuron}
    (hj : ns[j]? = some n) : ∀ s ∈ n.Synapses, s.PostSynapticNeuron < ns.length :=
  h n (List.getElem?_mem hj)

theorem wellFormed_of_statics {ns ns1 : List Neuron} (hl : ns1.length = ns.length)
    (hs : ∀ j : Nat, ns1[j]?.map statics = ns[j]?.map statics) (h : WellFormed ns) :
    WellFormed ns1 := by
  intro n1 hn1 s hmem
  obtain ⟨j, hj⟩ := List.mem_iff_getElem?.mp hn1
  have e := hs j
  rw [hj] at e
  cases hn : ns[j]? with
  | none => rw [hn] at e; simp at e
  | some n =>
    rw [hn] at e
    simp only [Option.map_some', Option.some.injEq] at e
    have e2 : n1.Synapses = n.Synapses := by
      have := congrArg (fun t => t.2.2.2.1) e
      simpa [statics] using this
    rw [hl]
    exact wellFormed_get h hn s (e2 ▸ hmem)

theorem updateLoop_inv {ns : List Neuron} (r : Rand) (hwf : WellFormed ns) :
    ∀ k, k ≤ ns.length → ∃ s, updateLoop k ns r = some s ∧ LoopInv ns r k s := by
  intro k
  induction k with
  | zero =>
    intro _
    exact ⟨(ns, r), rfl, rfl, fun _ => rfl, fun _ _ => rfl, fun i hi => absurd hi (by omega)⟩
  | succ k ih =>
    intro hk
    obtain ⟨s, hs, hl, hst, hnp, hown⟩ := ih (by omega)
    have hklt : k < s.1.length := by omega
    have hk' : s.1[k]? = some s.1[k] := List.getElem?_eq_getElem hklt
    have hwf1 : WellFormed s.1 := wellFormed_of_statics hl hst hwf
    obtain ⟨s1, hs1⟩ := stepNeuron_isSome s.2 hk' (wellFormed_get hwf1 hk')
    refine ⟨s1, by simp only [updateLoop, hs, Option.some_bind, hs1], ?_, ?_, ?_, ?_⟩
    · rw [(stepNeuron_spec hk' hs1).1, hl]
    · intro j
      rw [stepNeuron_statics hk' hs1 j, hst j]
    · intro j hj
      rw [stepNeuron_other hk' hs1 (by omega : k ≠ j), hnp j (by omega)]
    · intro i hi
      by_cases hik : i = k
      · subst hik
        refine ⟨s, s.1[i], hs, hk', ?_⟩
        rw [stepNeuron_self hk' hs1]
        rfl
      · obtain ⟨si, ni, h1, h2, h3⟩ := hown i (by omega)
        refine ⟨si, ni, h1, h2, ?_⟩
        rw [stepNeuron_other hk' hs1 (fun e => hik e.symm), h3]

theorem tick_neuron {g : Game} (r : Rand) (hwf : WellFormed g.Network.Neurons) {i : Nat}
    (hi : i < g.Network.Neurons.length) :
    ∃ o si ni n0, Update g r = some o ∧ updateLoop i g.Network.Neurons r = some si ∧
      si.1[i]? = some ni ∧ g.Network.Neurons[i]? = some n0 ∧ noPot ni = noPot n0 ∧
      o.game.Network.Neurons[i]?.map noPot = some (noPot (ownEffect ni si.2)) ∧
      o.game.Network.Neurons.length = g.Network.Neurons.length ∧
      (∀ j : Nat, o.game.Network.Neurons[j]?.map statics = g.Network.Neurons[j]?.map statics) ∧
      WellFormed o.game.Network.Neurons ∧ o.err = none ∧
      o.game.TickCount = wrapInt (g.TickCount + 1) := by
  obtain ⟨s, hs, hl, hst, _, hown⟩ := updateLoop_inv r hwf g.Network.Neurons.length le_rfl
  obtain ⟨si, ni, h1, h2, h3⟩ := hown i hi
  obtain ⟨si1, hsi1, _, _, hnp, _⟩ := updateLoop_inv r hwf i (by omega)
  have e : si1 = si := by rw [h1] at hsi1; exact (Option.some.inj hsi1).symm
  subst e
  have h4 := hnp i le_rfl
  rw [h2, List.getElem?_eq_getElem hi] at h4
  simp only [Option.map_some', Option.some.injEq] at h4
  have ho : Update g r = some ⟨⟨⟨s.1⟩, wrapInt (g.TickCount + 1)⟩, s.2, none⟩ := by
    simp only [Update, hs, Option.map_some']
  refine ⟨_, si1, ni, g.Network.Neurons[i], ho, h1, h2,
    List.getElem?_eq_getElem hi, h4, h3, hl, hst, wellFormed_of_statics hl hst hwf, rfl, rfl⟩

theorem timer_ownEffect (n : Neuron) (r : Rand) :
    (ownEffect n r).RefractoryTimer =
      if n.RefractoryTimer > 0 then n.RefractoryTimer - 1
      else if firesNow n r then 20 else n.RefractoryTimer := by
  unfold ownEffect firesNow
  by_cases ht : n.RefractoryTimer > 0
  · simp [ht]
  · by_cases hf : integrate n (r 0 % 3) ≥ n.Threshold <;> simp [ht, hf]

theorem firesNow_of_noPot_timer {n m : Neuron} (h : noPot n = noPot m) :
    n.RefractoryTimer = m.RefractoryTimer := by
  have := congrArg (fun t => t.RefractoryTimer) h
  simpa [noPot] using this

/-- One tick seen from neuron `i`: the tick succeeds and keeps the network well formed; the
neuron is evaluated exactly when its timer is not positive; its timer is decremented when
positive, set to 20 when the neuron fires, and left alone otherwise; a refractory neuron's own
loop body only decrements the timer and draws no random input. -/
theorem tick_timer {g : Game} (r : Rand) (hwf : WellFormed g.Network.Neurons) {i : Nat}
    (hi : i < g.Network.Neurons.length) :
    ∃ o t0, Update g r = some o ∧ WellFormed o.game.Network.Neurons ∧
      o.game.Network.Neurons.length = g.Network.Neurons.length ∧
      timerAt g i = some t0 ∧
      evaluatedInTick g r i = !decide (t0 > 0) ∧
      (firesInTick g r i = true → ¬ t0 > 0) ∧
      timerAt o.game i =
        some (if t0 > 0 then t0 - 1 else if firesInTick g r i then 20 else t0) ∧
      (t0 > 0 → ∃ si ni, updateLoop i g.Network.Neurons r = some si ∧ si.1[i]? = some ni ∧
        stepNeuron si.1 i si.2 =
          some (si.1.set i { ni with RefractoryTimer := ni.RefractoryTimer - 1 }, si.2)) := by
  obtain ⟨o, si, ni, n0, ho, hsi, hni, hn0, hnp, hout, hlen, _, hwf1, _, _⟩ :=
    tick_neuron r hwf hi
  have ht : ni.RefractoryTimer = n0.RefractoryTimer := firesNow_of_noPot_timer hnp
  have hfire : firesInTick g r i = firesNow ni si.2 := by
    simp only [firesInTick, hsi, firesAt, hni, firesNow]
  refine ⟨o, n0.RefractoryTimer, ho, hwf1, hlen, by simp [timerAt, hn0], ?_, ?_, ?_, ?_⟩
  · simp only [evaluatedInTick, hsi, evaluatedAt, hni, ht]
  · intro hf
    rw [hfire] at hf
    unfold firesNow at hf
    rw [ht] at hf
    intro hpos
    simp [hpos] at hf
  · have e : timerAt o.game i = (o.game.Network.Neurons[i]?.map noPot).map
        (fun n => n.RefractoryTimer) := by
      unfold timerAt
      cases o.game.Network.Neurons[i]? <;> simp [noPot]
    rw [e, hout, hfire]
    simp only [Option.map_some', Option.some.injEq]
    show (ownEffect ni si.2).RefractoryTimer = _
    rw [timer_ownEffect, ht]
  · intro hpos
    refine ⟨si, ni, hsi, hni, ?_⟩
    have hpos1 : ni.RefractoryTimer > 0 := by rw [ht]; exact hpos
    simp [stepNeuron, hni, hpos1]

theorem ticks_succ (k : Nat) (g : Game) (r : Rand) :
    ticks (k + 1) g r =
      (ticks k g r).bind (fun s => (Update s.1 s.2).map (fun o => (o.game, o.rand))) := rfl

theorem ticks_countdown {g : Game} (r : Rand) (hwf : WellFormed g.Network.Neurons) {i : Nat}
    (hi : i < g.Network.Neurons.length) (c : Nat) (ht : timerAt g i = some (c : Int)) :
    ∀ k, k ≤ c → ∃ s, ticks k g r = some s ∧ WellFormed s.1.Network.Neurons ∧
      s.1.Network.Neurons.length = g.Network.Neurons.length ∧
      timerAt s.1 i = some ((c : Int) - k) := by
  intro k
  induction k with
  | zero => intro _; exact ⟨(g, r), rfl, hwf, rfl, by simpa using ht⟩
  | succ k ih =>
    intro hk
    obtain ⟨s, hs, hwfs, hlen, hts⟩ := ih (by omega)
    obtain ⟨o, t0, ho, hwfo, hleno, ht0, _, _, hto, _⟩ :=
      tick_timer s.2 hwfs (i := i) (by omega)
    rw [hts] at ht0
    have e : t0 = (c : Int) - k := (Option.some.inj ht0).symm
    subst e
    have hpos : (c : Int) - k > 0 := by omega
    refine ⟨(o.game, o.rand), ?_, hwfo, by rw [hleno, hlen], ?_⟩
    · rw [ticks_succ, hs]
      simp [ho]
    · rw [hto, if_pos hpos]
      congr 1
      push_cast
      ring

/-- C2: when neuron `i` of a well-formed network fires during a tick, its timer is 20 right
after that tick; after `k` further ticks (`k ≤ 20`) the timer is `20 - k`; in each of the
next 20 ticks the neuron is not evaluated, does not fire, and its own loop body only decrements
the timer without drawing random input or touching the potential; in the tick after those 20
it is evaluated again. The random source is arbitrary. -/
theorem C2_refractory_invariant (g : Game) (r : Rand) (i : Nat)
    (hwf : WellFormed g.Network.Neurons) (hi : i < g.Network.Neurons.length)
    (hf : firesInTick g r i = true) :
    ∃ o, Update g r = some o ∧ timerAt o.game i = some 20 ∧
      ∀ k, k ≤ 20 → ∃ s, ticks k o.game o.rand = some s ∧
        timerAt s.1 i = some (20 - (k : Int)) ∧
        (k < 20 → evaluatedInTick s.1 s.2 i = false ∧ firesInTick s.1 s.2 i = false ∧
          ∃ si ni, updateLoop i s.1.Network.Neurons s.2 = some si ∧ si.1[i]? = some ni ∧
            stepNeuron si.1 i si.2 =
              some (si.1.set i { ni with RefractoryTimer := ni.RefractoryTimer - 1 }, si.2)) ∧
        (k = 20 → evaluatedInTick s.1 s.2 i = true) := by
  obtain ⟨o, t0, ho, hwfo, hleno, _, _, hnot, hto, _⟩ := tick_timer r hwf hi
  have h20 : timerAt o.game i = some 20 := by
    rw [hto, if_neg (hnot hf), hf]
    rfl
  refine ⟨o, ho, h20, ?_⟩
  intro k hk
  obtain ⟨s, hs, hwfs, hlens, hts⟩ :=
    ticks_countdown o.rand hwfo (i := i) (by omega) 20 (by simpa using h20) k hk
  obtain ⟨_, t1, _, _, _, ht1, hev, hfi, _, hstep⟩ :=
    tick_timer s.2 hwfs (i := i) (by omega)
  rw [hts] at ht1
  have e : t1 = 20 - (k : Int) := by
    have := Option.some.inj ht1
    push_cast at this
    omega
  subst e
  refine ⟨s, hs, by simpa using hts, ?_, ?_⟩
  · intro hlt
    have hpos : 20 - (k : Int) > 0 := by omega
    refine ⟨by rw [hev]; simp [hpos], ?_, hstep hpos⟩
    cases hc : firesInTick s.1 s.2 i with
    | false => rfl
    | true => exact absurd hpos (hfi hc)
  · intro h20k
    subst h20k
    rw [hev]
    simp

theorem wellFormed_pairGame : WellFormed pairGame.Network.Neurons := by
  intro n hn s hs
  simp [pairGame, mkNeuron] at hn
  rcases hn with rfl | rfl <;> simp at hs <;> subst hs <;> decide

theorem C2_refractory_invariant_witness :
    (WellFormed pairGame.Network.Neurons ∧ 0 < pairGame.Network.Neurons.length ∧
      firesInTick pairGame (fun _ => 2) 0 = true) ∧
    ∃ o, Update pairGame (fun _ => 2) = some o ∧ timerAt o.game 0 = some 20 ∧
      ∀ k, k ≤ 20 → ∃ s, ticks k o.game o.rand = some s ∧
        timerAt s.1 0 = some (20 - (k : Int)) ∧
        (k < 20 → evaluatedInTick s.1 s.2 0 = false ∧ firesInTick s.1 s.2 0 = false ∧
          ∃ si ni, updateLoop 0 s.1.Network.Neurons s.2 = some si ∧ si.1[0]? = some ni ∧
            stepNeuron si.1 0 si.2 =
              some (si.1.set 0 { ni with RefractoryTimer := ni.RefractoryTimer - 1 }, si.2)) ∧
        (k = 20 → evaluatedInTick s.1 s.2 0 = true) :=
  ⟨⟨wellFormed_pairGame, by decide, by decide⟩,
   C2_refractory_invariant pairGame (fun _ => 2) 0 wellFormed_pairGame (by decide) (by decide)⟩

theorem addWeights_cons (w : Int) (ws : List Int) (p : Nat) :
    addWeights (w :: ws) p = addWeights ws ((p + toUint16 w) % 65536) := rfl

theorem addWeights_int (ws : List Int) : ∀ p : Nat, ws ≠ [] ∨ p < 65536 →
    ((addWeights ws p : Nat) : Int) = ((p : Int) + ws.sum) % 65536 := by
  induction ws with
  | nil =>
    intro p h
    rcases h with h | h
    · exact absurd rfl h
    · simp only [addWeights, List.foldl_nil, List.sum_nil]
      omega
  | cons w ws ih =>
    intro p _
    rw [addWeights_cons, ih _ (Or.inr (Nat.mod_lt _ (by norm_num))), List.sum_cons]
    have e : (((p + toUint16 w) % 65536 : Nat) : Int) = ((p : Int) + w) % 65536 := by
      unfold toUint16
      omega
    rw [e]
    omega

theorem weightsInto_eq_nil {ss : List Synapse} {j : Nat}
    (h : ∀ s ∈ ss, s.PostSynapticNeuron ≠ j) : weightsInto ss j = [] := by
  unfold weightsInto
  rw [List.map_eq_nil_iff, List.filter_eq_nil_iff]
  intro s hs
  simpa using h s hs

theorem fire_step {g : Game} (r : Rand) (hwf : WellFormed g.Network.Neurons) {i : Nat}
    (hi : i < g.Network.Neurons.length) (hf : firesInTick g r i = true) :
    ∃ si ni s1, updateLoop i g.Network.Neurons r = some si ∧ si.1[i]? = some ni ∧
      ¬ ni.RefractoryTimer > 0 ∧ integrate ni (si.2 0 % 3) ≥ ni.Threshold ∧
      updateLoop (i + 1) g.Network.Neurons r = some s1 ∧
      stepNeuron si.1 i si.2 = some s1 ∧
      ∀ j : Nat, s1.1[j]? =
        ((si.1.set i { ni with
            IsFiring := true, Potential := ni.ResetPotential, RefractoryTimer := 20 })[j]?).map
          (bump ni.Synapses j) := by
  obtain ⟨s1, hs1, _⟩ := updateLoop_inv r hwf (i + 1) (by omega)
  obtain ⟨si, hsi, _⟩ := updateLoop_inv r hwf i (by omega)
  have hlt : i < si.1.length := by
    rename_i h
    rw [h.1]; exact hi
  have hni : si.1[i]? = some si.1[i] := List.getElem?_eq_getElem hlt
  have hstep : stepNeuron si.1 i si.2 = some s1 := by
    have := hs1
    simp only [updateLoop, hsi, Option.some_bind] at this
    exact this
  have hfn : firesNow si.1[i] si.2 = true := by
    simpa only [firesInTick, hsi, firesAt, hni, firesNow] using hf
  have ht : ¬ (si.1[i]).RefractoryTimer > 0 := by
    intro hpos
    simp [firesNow, hpos] at hfn
  have hth : integrate si.1[i] (si.2 0 % 3) ≥ (si.1[i]).Threshold := by
    simpa [firesNow, ht] using hfn
  refine ⟨si, si.1[i], s1, hsi, hni, ht, hth, hs1, hstep, ?_⟩
  intro j
  have h3 := (stepNeuron_spec hni hstep).2.2 j
  have e1 : ownEffect si.1[i] si.2 = { si.1[i] with
      IsFiring := true, Potential := (si.1[i]).ResetPotential, RefractoryTimer := 20 } := by
    simp [ownEffect, ht, hth]
  have e2 : outgoing si.1[i] si.2 = (si.1[i]).Synapses := by
    simp [outgoing, hfn]
  rw [h3, e1, e2]

theorem wellFormed_selfGame : WellFormed selfGame.Network.Neurons := by
  intro n hn s hs
  simp [selfGame, mkNeuron] at hn
  subst hn
  simp at hs
  subst hs
  decide

theorem wellFormed_wrapGame : WellFormed wrapGame.Network.Neurons := by
  intro n hn s hs
  simp [wrapGame, mkNeuron] at hn
  rcases hn with rfl | rfl <;> simp at hs
  subst hs
  decide

/-- C3 (as stated, refuted): a firing neuron with a synapse onto itself does not end its
firing step at its reset potential: here the reset potential is 10 and the potential right
after the step is 15. -/
theorem C3_self_synapse_counterexample :
    WellFormed selfGame.Network.Neurons ∧
    firesInTick selfGame (fun _ => 2) 0 = true ∧
    selfGame.Network.Neurons[0]?.map (fun n => n.ResetPotential) = some 10 ∧
    (updateLoop 1 selfGame.Network.Neurons (fun _ => 2)).bind
      (fun s => s.1[0]?.map (fun n => n.Potential)) = some 15 :=
  ⟨wellFormed_selfGame, by decide, by decide, by decide⟩

/-- C3 (amended): when neuron `i` of a well-formed network fires during a tick, right after
its loop body (propagation included) its timer is 20, `IsFiring` is true, and its potential is
its reset potential when none of its synapses targets `i` itself; in general it is the reset
potential plus the weights of its synapses onto itself, modulo `2^16`. -/
theorem C3_firing_effect_self (g : Game) (r : Rand) (i : Nat)
    (hwf : WellFormed g.Network.Neurons) (hi : i < g.Network.Neurons.length)
    (hf : firesInTick g r i = true) :
    ∃ si ni s1 n1, updateLoop i g.Network.Neurons r = some si ∧ si.1[i]? = some ni ∧
      updateLoop (i + 1) g.Network.Neurons r = some s1 ∧ s1.1[i]? = some n1 ∧
      n1.RefractoryTimer = 20 ∧ n1.IsFiring = true ∧
      ((∀ s ∈ ni.Synapses, s.PostSynapticNeuron ≠ i) → n1.Potential = ni.ResetPotential) ∧
      ((∃ s ∈ ni.Synapses, s.PostSynapticNeuron = i) →
        (n1.Potential : Int) =
          ((ni.ResetPotential : Int) + (weightsInto ni.Synapses i).sum) % 65536) := by
  obtain ⟨si, ni, s1, hsi, hni, _, _, hs1, _, hj⟩ := fire_step r hwf hi hf
  have hlt : i < si.1.length := by
    by_contra hc
    rw [List.getElem?_eq_none (by omega)] at hni
    exact absurd hni (by simp)
  have h := hj i
  rw [List.getElem?_set, if_pos rfl, if_pos hlt] at h
  refine ⟨si, ni, s1, _, hsi, hni, hs1, h, rfl, rfl, ?_, ?_⟩
  · intro hno
    show addWeights (weightsInto ni.Synapses i) ni.ResetPotential = ni.ResetPotential
    rw [weightsInto_eq_nil hno]
    rfl
  · rintro ⟨s, hs, hsi⟩
    show ((addWeights (weightsInto ni.Synapses i) ni.ResetPotential : Nat) : Int) = _
    apply addWeights_int
    left
    intro hnil
    have : s.Weight ∈ weightsInto ni.Synapses i := by
      unfold weightsInto
      exact List.mem_map.mpr ⟨s, List.mem_filter.mpr ⟨hs, by simpa using hsi⟩, rfl⟩
    rw [hnil] at this
    exact absurd this (List.not_mem_nil _)

theorem C3_firing_effect_self_witness :
    (WellFormed pairGame.Network.Neurons ∧ 0 < pairGame.Network.Neurons.length ∧
      firesInTick pairGame (fun _ => 2) 0 = true) ∧
    ∃ si ni s1 n1, updateLoop 0 pairGame.Network.Neurons (fun _ => 2) = some si ∧
      si.1[0]? = some ni ∧
      updateLoop (0 + 1) pairGame.Network.Neurons (fun _ => 2) = some s1 ∧ s1.1[0]? = some n1 ∧
      n1.RefractoryTimer = 20 ∧ n1.IsFiring = true ∧
      ((∀ s ∈ ni.Synapses, s.PostSynapticNeuron ≠ 0) → n1.Potential = ni.ResetPotential) ∧
      ((∃ s ∈ ni.Synapses, s.PostSynapticNeuron = 0) →
        (n1.Potential : Int) =
          ((ni.ResetPotential : Int) + (weightsInto ni.Synapses 0).sum) % 65536) :=
  ⟨⟨wellFormed_pairGame, by decide, by decide⟩,
   C3_firing_effect_self pairGame (fun _ => 2) 0 wellFormed_pairGame (by decide) (by decide)⟩

/-- C4 (as stated, refuted): the target's potential does not grow by the weight as an integer
when the `uint16` addition wraps: neuron 0 fires and sends weight 10 to neuron 1, whose
potential is 65530 before and 4 after, not 65540. -/
theorem C4_wraparound_counterexample :
    WellFormed wrapGame.Network.Neurons ∧
    firesInTick wrapGame (fun _ => 2) 0 = true ∧
    wrapGame.Network.Neurons[1]?.map (fun n => n.Potential) = some 65530 ∧
    (wrapGame.Network.Neurons[0]?.map (fun n => weightsInto n.Synapses 1)) = some [10] ∧
    (updateLoop 1 wrapGame.Network.Neurons (fun _ => 2)).bind
      (fun s => s.1[1]?.map (fun n => n.Potential)) = some 4 ∧
    ((4 : Int) ≠ 65530 + 10) :=
  ⟨wellFormed_wrapGame, by decide, by decide, by decide, by decide, by decide⟩

theorem mem_weightsInto_ne_nil {ss : List Synapse} {j : Nat}
    (h : ∃ s ∈ ss, s.PostSynapticNeuron = j) : weightsInto ss j ≠ [] := by
  obtain ⟨s, hs, hsj⟩ := h
  intro hnil
  have : s.Weight ∈ weightsInto ss j := by
    unfold weightsInto
    exact List.mem_map.mpr ⟨s, List.mem_filter.mpr ⟨hs, by simpa using hsj⟩, rfl⟩
  rw [hnil] at this
  exact absurd this (List.not_mem_nil _)

theorem update_wellFormed (g : Game) (r : Rand) (hwf : WellFormed g.Network.Neurons) :
    ∃ o, Update g r = some o ∧ o.err = none ∧
      o.game.Network.Neurons.length = g.Network.Neurons.length ∧
      (∀ j : Nat, o.game.Network.Neurons[j]?.map statics = g.Network.Neurons[j]?.map statics) ∧
      WellFormed o.game.Network.Neurons := by
  obtain ⟨s, hs, hl, hst, _, _⟩ := updateLoop_inv r hwf g.Network.Neurons.length le_rfl
  have ho : Update g r = some ⟨⟨⟨s.1⟩, wrapInt (g.TickCount + 1)⟩, s.2, none⟩ := by
    simp only [Update, hs, Option.map_some']
  exact ⟨_, ho, rfl, hl, hst, wellFormed_of_statics hl hst hwf⟩

theorem ticks_wellFormed (g : Game) (r : Rand) (hwf : WellFormed g.Network.Neurons) :
    ∀ k, ∃ s, ticks k g r = some s ∧ WellFormed s.1.Network.Neurons ∧
      s.1.Network.Neurons.length = g.Network.Neurons.length := by
  intro k
  induction k with
  | zero => exact ⟨(g, r), rfl, hwf, rfl⟩
  | succ k ih =>
    obtain ⟨s, hs, hwfs, hl⟩ := ih
    obtain ⟨o, ho, _, hlo, _, hwfo⟩ := update_wellFormed s.1 s.2 hwfs
    exact ⟨(o.game, o.rand), by rw [ticks_succ, hs]; simp [ho], hwfo, by rw [hlo, hl]⟩

/-- C10: on a network whose synapse targets are all below the number of neurons, with any
random source, `Game.Update` completes without an index panic, returns a nil error, and leaves
a network with the same number of neurons whose synapse targets are again in range; hence any
number of successive ticks completes. -/
theorem C10_tick_cannot_fail (g : Game) (r : Rand) (hwf : WellFormed g.Network.Neurons) :
    (∃ o, Update g r = some o ∧ o.err = none ∧
      o.game.Network.Neurons.length = g.Network.Neurons.length ∧
      WellFormed o.game.Network.Neurons) ∧
    ∀ k, ∃ s, ticks k g r = some s ∧ WellFormed s.1.Network.Neurons := by
  obtain ⟨o, ho, he, hl, _, hw⟩ := update_wellFormed g r hwf
  refine ⟨⟨o, ho, he, hl, hw⟩, fun k => ?_⟩
  obtain ⟨s, hs, hws, _⟩ := ticks_wellFormed g r hwf k
  exact ⟨s, hs, hws⟩

theorem C10_tick_cannot_fail_witness :
    WellFormed pairGame.Network.Neurons ∧
    ((∃ o, Update pairGame (fun _ => 1) = some o ∧ o.err = none ∧
      o.game.Network.Neurons.length = pairGame.Network.Neurons.length ∧
      WellFormed o.game.Network.Neurons) ∧
    ∀ k, ∃ s, ticks k pairGame (fun _ => 1) = some s ∧ WellFormed s.1.Network.Neurons) :=
  ⟨wellFormed_pairGame, C10_tick_cannot_fail pairGame (fun _ => 1) wellFormed_pairGame⟩

theorem example_rising : ∀ k < 50, 1 ≤ k →
    potentialAfter k exampleGame (fun _ => 2) 0 = some k ∧
    firedOnTick k exampleGame (fun _ => 2) 0 = some false := by
  decide

theorem example_refractory : ∀ k < 71, 51 ≤ k →
    potentialAfter k exampleGame (fun _ => 2) 0 = some 10 ∧
    firedOnTick k exampleGame (fun _ => 2) 0 = some false := by
  decide

/-- C8: the one-neuron example with random input 2 on every tick: the potential after tick `k`
is `k` for `k = 1..49` without firing, the neuron fires on tick 50, after which its potential
is 10 and its timer 20, and after each of the ticks 51..70 the potential is still 10 and the
neuron has not fired again. -/
theorem C8_one_neuron_example :
    (∀ k, 1 ≤ k → k ≤ 49 →
      potentialAfter k exampleGame (fun _ => 2) 0 = some k ∧
      firedOnTick k exampleGame (fun _ => 2) 0 = some false) ∧
    firedOnTick 50 exampleGame (fun _ => 2) 0 = some true ∧
    potentialAfter 50 exampleGame (fun _ => 2) 0 = some 10 ∧
    timerAfter 50 exampleGame (fun _ => 2) 0 = some 20 ∧
    (∀ k, 51 ≤ k → k ≤ 70 →
      potentialAfter k exampleGame (fun _ => 2) 0 = some 10 ∧
      firedOnTick k exampleGame (fun _ => 2) 0 = some false) := by
  refine ⟨fun k h1 h2 => example_rising k (by omega) h1, by decide, by decide, by decide,
    fun k h1 h2 => example_refractory k (by omega) h1⟩

theorem C8_one_neuron_example_witness :
    potentialAfter 49 exampleGame (fun _ => 2) 0 = some 49 ∧
    firedOnTick 49 exampleGame (fun _ => 2) 0 = some false ∧
    potentialAfter 70 exampleGame (fun _ => 2) 0 = some 10 ∧
    firedOnTick 70 exampleGame (fun _ => 2) 0 = some false :=
  ⟨(C8_one_neuron_example.1 49 (by decide) (by decide)).1,
   (C8_one_neuron_example.1 49 (by decide) (by decide)).2,
   (C8_one_neuron_example.2.2.2.2 70 (by decide) (by decide)).1,
   (C8_one_neuron_example.2.2.2.2 70 (by decide) (by decide)).2⟩

theorem synapseLoop_spec {networkSize : Int} (hpos : 0 < networkSize) :
    ∀ (k : Nat) (r : Rand), ∃ ss r1, synapseLoop k networkSize r = some (ss, r1) ∧
      ss.length = k ∧ ∀ s ∈ ss, s.PostSynapticNeuron < networkSize.toNat := by
  intro k
  induction k with
  | zero => intro r; exact ⟨[], r, rfl, rfl, fun s hs => absurd hs (List.not_mem_nil _)⟩
  | succ k ih =>
    intro r
    obtain ⟨rest, r3, h3, hl, hb⟩ := ih (fun j => r (j + 1 + 1))
    have e : synapseLoop (k + 1) networkSize r =
        some ({ PostSynapticNeuron := toUint64 ((r 0 % networkSize.toNat : Nat) : Int),
                Weight := toInt16 (((r 1 % (50 : Int).toNat : Nat) : Int) + 1) } :: rest, r3) := by
      simp only [synapseLoop, Intn, if_neg (not_le.mpr hpos), show ¬ (50 : Int) ≤ 0 by norm_num,
        if_false]
      rw [h3]
    refine ⟨_, r3, e, by simp [hl], ?_⟩
    intro s hs
    rcases List.mem_cons.mp hs with rfl | hmem
    · have hn : 0 < networkSize.toNat := by omega
      have hm : r 0 % networkSize.toNat < networkSize.toNat := Nat.mod_lt _ hn
      show toUint64 ((r 0 % networkSize.toNat : Nat) : Int) < networkSize.toNat
      unfold toUint64
      omega
    · exact hb s hmem

theorem MakeNeuron_spec {networkSize : Int} (hpos : 0 < networkSize) (r : Rand) :
    ∃ ss r1, MakeNeuron networkSize r = some ({ zeroNeuron with
        Potential := 0, Threshold := toUint16 (((r 0 % (100 : Int).toNat : Nat) : Int) + 50),
        ResetPotential := toUint16 ((r 1 % (50 : Int).toNat : Nat) : Int),
        PotentialDecay := toUint16 (((r 2 % (5 : Int).toNat : Nat) : Int) + 1),
        Synapses := ss, IsFiring := false, RefractoryTimer := 0 }, r1) ∧
      ∀ s ∈ ss, s.PostSynapticNeuron < networkSize.toNat := by
  obtain ⟨ss, r4, h4, _, hb⟩ :=
    synapseLoop_spec hpos (r 3 % (3 : Int).toNat + 1) (fun k => r (k + 1 + 1 + 1 + 1))
  refine ⟨ss, r4, ?_, hb⟩
  simp only [MakeNeuron, InitNeuron, MakeSynapses, Intn, show ¬ (100 : Int) ≤ 0 by norm_num,
    show ¬ (50 : Int) ≤ 0 by norm_num, show ¬ (5 : Int) ≤ 0 by norm_num,
    show ¬ (3 : Int) ≤ 0 by norm_num, if_false]
  rw [h4]

theorem makeLoop_spec {networkSize : Int} (hpos : 0 < networkSize) :
    ∀ (k : Nat) (ns : List Neuron) (r : Rand), ∃ ns1 r1,
      makeLoop k networkSize ns r = some (ns1, r1) ∧ ns1.length = ns.length + k ∧
      ∀ n ∈ ns1, n ∈ ns ∨ ∀ s ∈ n.Synapses, s.PostSynapticNeuron < networkSize.toNat := by
  intro k
  induction k with
  | zero => intro ns r; exact ⟨ns, r, rfl, rfl, fun n hn => Or.inl hn⟩
  | succ k ih =>
    intro ns r
    have hmk : ∃ n r1, MakeNeuron networkSize r = some (n, r1) ∧
        ∀ s ∈ n.Synapses, s.PostSynapticNeuron < networkSize.toNat := by
      obtain ⟨ss, r1, h, hb⟩ := MakeNeuron_spec hpos r
      exact ⟨_, r1, h, hb⟩
    obtain ⟨n, r1, hn, hb⟩ := hmk
    obtain ⟨ns1, r2, h2, hl, hall⟩ := ih (ns ++ [n]) r1
    refine ⟨ns1, r2, by simp only [makeLoop, hn, h2], by simp at hl; omega, ?_⟩
    intro m hm
    rcases hall m hm with h | h
    · rcases List.mem_append.mp h with h1 | h1
      · exact Or.inl h1
      · simp at h1
        subst h1
        exact Or.inr hb
    · exact Or.inr h

theorem setPositions_spec (xSize ySize : Int) : ∀ (ns : List Neuron) (i : Nat) (ns1 : List Neuron),
    setPositions xSize ySize i ns = some ns1 →
      ns1.map (fun n => n.Synapses) = ns.map (fun n => n.Synapses) := by
  intro ns
  induction ns with
  | nil =>
    intro i ns1 h
    simp only [setPositions, Option.some.injEq] at h
    subst h
    rfl
  | cons n rest ih =>
    intro i ns1 h
    simp only [setPositions] at h
    cases he : expandIdx i xSize with
    | none => simp [he] at h
    | some rc =>
      simp only [he] at h
      cases hr : setPositions xSize ySize (i + 1) rest with
      | none => simp [hr] at h
      | some tl =>
        simp only [hr, Option.map_some', Option.some.injEq] at h
        subst h
        simp [ih (i + 1) tl hr]

theorem setPositions_isSome {xSize : Int} (ySize : Int) (hx : xSize ≠ 0) :
    ∀ (ns : List Neuron) (i : Nat), ∃ ns1, setPositions xSize ySize i ns = some ns1 := by
  intro ns
  induction ns with
  | nil => intro i; exact ⟨[], rfl⟩
  | cons n rest ih =>
    intro i
    obtain ⟨tl, htl⟩ := ih (i + 1)
    simp only [setPositions, expandIdx, if_neg hx, htl, Option.map_some']
    exact ⟨_, rfl⟩

theorem setPositions_zero (ySize : Int) (n : Neuron) (rest : List Neuron) (i : Nat) :
    setPositions 0 ySize i (n :: rest) = none := by
  simp [setPositions, expandIdx]

theorem wellFormed_of_map_synapses {ns ns1 : List Neuron}
    (h : ns1.map (fun n => n.Synapses) = ns.map (fun n => n.Synapses))
    (hb : ∀ n ∈ ns, ∀ s ∈ n.Synapses, s.PostSynapticNeuron < ns.length) :
    WellFormed ns1 := by
  have hl : ns1.length = ns.length := by
    have := congrArg List.length h
    simpa using this
  intro n1 hn1 s hs
  have hm : n1.Synapses ∈ ns.map (fun n => n.Synapses) := by
    rw [← h]
    exact List.mem_map.mpr ⟨n1, hn1, rfl⟩
  obtain ⟨n, hn, e⟩ := List.mem_map.mp hm
  rw [hl]
  exact hb n hn s (by rw [e]; exact hs)

/-- C9: `InitNetwork` on a fresh (empty) network, for every size, grid and random source:
whenever it builds a network, that network has `networkSize` neurons (none for a size that is
not positive) and every synapse target is below the number of neurons; it does build one unless
the size is positive and `xSize` is 0, where `expandIdx` divides by zero. -/
theorem C9_construction_invariant (networkSize xSize ySize : Int) (r : Rand) :
    (∀ net r1, InitNetwork { Neurons := [] } networkSize xSize ySize r = some (net, r1) →
      net.Neurons.length = networkSize.toNat ∧
      (0 ≤ networkSize → (net.Neurons.length : Int) = networkSize) ∧
      ∀ n ∈ net.Neurons, ∀ s ∈ n.Synapses, s.PostSynapticNeuron < net.Neurons.length) ∧
    ((networkSize ≤ 0 ∨ xSize ≠ 0) →
      ∃ net r1, InitNetwork { Neurons := [] } networkSize xSize ySize r = some (net, r1)) := by
  by_cases hpos : 0 < networkSize
  · obtain ⟨ns, r1, hmk, hl, hall⟩ := makeLoop_spec hpos networkSize.toNat [] r
    have hb : ∀ n ∈ ns, ∀ s ∈ n.Synapses, s.PostSynapticNeuron < ns.length := by
      intro n hn s hs
      rcases hall n hn with h | h
      · exact absurd h (List.not_mem_nil _)
      · have := h s hs
        simp at hl
        omega
    constructor
    · intro net r2 h
      simp only [InitNetwork, hmk] at h
      cases hp : setPositions xSize ySize 0 ns with
      | none => simp [hp] at h
      | some ns1 =>
        simp only [hp, Option.map_some', Option.some.injEq, Prod.mk.injEq] at h
        obtain ⟨h1, _⟩ := h
        subst h1
        have hmap := setPositions_spec xSize ySize ns 0 ns1 hp
        have hl1 : ns1.length = ns.length := by
          have := congrArg List.length hmap
          simpa using this
        have hw := wellFormed_of_map_synapses hmap hb
        simp at hl
        refine ⟨by simp only []; omega, fun _ => by simp only []; omega, hw⟩
    · intro hor
      have hx : xSize ≠ 0 := by
        rcases hor with h | h
        · omega
        · exact h
      obtain ⟨ns1, hp⟩ := setPositions_isSome ySize hx ns 0
      exact ⟨{ Neurons := ns1 }, r1, by simp only [InitNetwork, hmk, hp, Option.map_some']⟩
  · have h0 : networkSize.toNat = 0 := by omega
    have e : InitNetwork { Neurons := [] } networkSize xSize ySize r =
        some ({ Neurons := [] }, r) := by
      simp only [InitNetwork, h0, makeLoop, setPositions, Option.map_some']
    constructor
    · intro net r2 h
      rw [e] at h
      simp only [Option.some.injEq, Prod.mk.injEq] at h
      obtain ⟨h1, _⟩ := h
      subst h1
      refine ⟨by simp [h0], fun h => by simp; omega, fun n hn => absurd hn (List.not_mem_nil _)⟩
    · intro _
      exact ⟨_, _, e⟩

theorem C9_construction_invariant_witness :
    ((2 : Int) ≤ 0 ∨ (2 : Int) ≠ 0) ∧
    ∃ net r1, InitNetwork { Neurons := [] } 2 2 1 (fun k => k) = some (net, r1) ∧
      net.Neurons.length = (2 : Int).toNat ∧
      ∀ n ∈ net.Neurons, ∀ s ∈ n.Synapses, s.PostSynapticNeuron < net.Neurons.length :=
  ⟨Or.inr (by decide),
   ((C9_construction_invariant 2 2 1 (fun k => k)).2 (Or.inr (by decide))).elim
     (fun net h => h.elim (fun r1 h1 =>
       ⟨net, r1, h1, ((C9_construction_invariant 2 2 1 (fun k => k)).1 net r1 h1).1,
         ((C9_construction_invariant 2 2 1 (fun k => k)).1 net r1 h1).2.2⟩))⟩

/-- With a positive size and `xSize = 0` the position loop of `InitNetwork` panics on the
first neuron. -/
theorem InitNetwork_zero_columns :
    (InitNetwork { Neurons := [] } 2 0 1 (fun k => k)).isSome = false := by
  decide

/-- A firing neuron whose synapse target is out of range makes `Game.Update` panic. -/
theorem update_panics_out_of_range : (Update strayGame (fun _ => 2)).isSome = false := by
  decide

theorem deinterleave_spread_testBit (n i : Nat) :
    (deinterleaveBits64 (spreadBits n)).testBit i = (decide (i < 21) && n.testBit i) := by
  rw [deinterleaveBits64_testBit, spreadBits_testBit]
  by_cases hi : i < 21
  · have a : 3 * i < 63 := by omega
    have b : 3 * i % 3 = 0 := by omega
    have c : 3 * i / 3 = i := by omega
    simp [hi, a, b, c]
  · simp [hi]

/-- C15: compacting the spread of any 64-bit `n` gives `n` masked to its low 21 bits. -/
theorem C15_compact_spread (n : Nat) (_hn : n < 2 ^ 64) :
    deinterleaveBits64 (spreadBits n) = n &&& 0x1FFFFF := by
  apply Nat.eq_of_testBit_eq
  intro i
  rw [deinterleave_spread_testBit, Nat.testBit_and,
    show (0x1FFFFF : Nat) = 2 ^ 21 - 1 by norm_num, Nat.testBit_two_pow_sub_one, Bool.and_comm]

theorem C15_compact_spread_witness :
    (18446744073709551615 : Nat) < 2 ^ 64 ∧
    deinterleaveBits64 (spreadBits 18446744073709551615) = 18446744073709551615 &&& 0x1FFFFF :=
  ⟨by norm_num, C15_compact_spread 18446744073709551615 (by norm_num)⟩

theorem spreadBits_mask (n : Nat) : spreadBits (n &&& 0x1FFFFF) = spreadBits n := by
  unfold spreadBits
  simp only [Nat.and_assoc, Nat.and_self]

/-- C16: the Morton index depends only on the low 21 bits of each coordinate: masking the
coordinates does not change it, so triples that agree on their low 21 bits encode alike. -/
theorem C16_truncation (x y z x1 y1 z1 : Nat)
    (_hx : x < 2 ^ 32) (_hy : y < 2 ^ 32) (_hz : z < 2 ^ 32)
    (_hx1 : x1 < 2 ^ 32) (_hy1 : y1 < 2 ^ 32) (_hz1 : z1 < 2 ^ 32) :
    EncodeMorton3D x y z = EncodeMorton3D (x &&& 0x1FFFFF) (y &&& 0x1FFFFF) (z &&& 0x1FFFFF) ∧
    (x &&& 0x1FFFFF = x1 &&& 0x1FFFFF → y &&& 0x1FFFFF = y1 &&& 0x1FFFFF →
      z &&& 0x1FFFFF = z1 &&& 0x1FFFFF → EncodeMorton3D x y z = EncodeMorton3D x1 y1 z1) := by
  have h : ∀ a b c : Nat, EncodeMorton3D a b c =
      EncodeMorton3D (a &&& 0x1FFFFF) (b &&& 0x1FFFFF) (c &&& 0x1FFFFF) := by
    intro a b c
    simp only [EncodeMorton3D, interleaveBits64, spreadBits_mask]
  refine ⟨h x y z, fun e1 e2 e3 => ?_⟩
  rw [h x y z, h x1 y1 z1, e1, e2, e3]

theorem C16_truncation_witness :
    ((2097152 + 5 : Nat) < 2 ^ 32 ∧ (7 : Nat) < 2 ^ 32 ∧ (4294967295 : Nat) < 2 ^ 32 ∧
      (5 : Nat) < 2 ^ 32 ∧ (4194304 + 7 : Nat) < 2 ^ 32 ∧ (2097151 : Nat) < 2 ^ 32) ∧
    EncodeMorton3D (2097152 + 5) 7 4294967295 = EncodeMorton3D 5 (4194304 + 7) 2097151 :=
  ⟨by norm_num,
   (C16_truncation (2097152 + 5) 7 4294967295 5 (4194304 + 7) 2097151
     (by norm_num) (by norm_num) (by norm_num) (by norm_num) (by norm_num) (by norm_num)).2
     (by decide) (by decide) (by decide)⟩

theorem spreadSum_succ (k x : Nat) :
    spreadSum (k + 1) x = 8 * spreadSum k (x / 2) + x % 2 := by
  unfold spreadSum
  rw [Finset.sum_range_succ', Finset.mul_sum]
  congr 1
  · apply Finset.sum_congr rfl
    intro i _
    simp only [bitAt, Nat.testBit_succ, pow_succ]
    ring
  · simp only [bitAt, Nat.testBit_zero, pow_zero, mul_one]
    have : x % 2 = 0 ∨ x % 2 = 1 := by omega
    rcases this with h | h <;> simp [h]

theorem spreadSum_strictMono (k : Nat) : ∀ x x1 : Nat, x1 < 2 ^ k → x < x1 →
    spreadSum k x < spreadSum k x1 := by
  induction k with
  | zero => intro x x1 h1 h; simp at h1; omega
  | succ k ih =>
    intro x x1 h1 h
    rw [spreadSum_succ, spreadSum_succ]
    have hb : x1 / 2 < 2 ^ k := by
      rw [pow_succ] at h1
      omega
    by_cases e : x / 2 = x1 / 2
    · rw [e]
      omega
    · have := ih (x / 2) (x1 / 2) hb (by omega)
      omega

theorem spreadSum_mono (k : Nat) (x x1 : Nat) (h1 : x1 < 2 ^ k) (h : x ≤ x1) :
    spreadSum k x ≤ spreadSum k x1 := by
  rcases Nat.lt_or_eq_of_le h with h | h
  · exact le_of_lt (spreadSum_strictMono k x x1 h1 h)
  · rw [h]

theorem EncodeMorton3D_eq_spreadSum (x y z : Nat) :
    EncodeMorton3D x y z = spreadSum 21 x + 2 * spreadSum 21 y + 4 * spreadSum 21 z := by
  rw [EncodeMorton3D_eq_sum]
  unfold spreadSum
  rw [Finset.mul_sum, Finset.mul_sum, ← Finset.sum_add_distrib, ← Finset.sum_add_distrib]
  apply Finset.sum_congr rfl
  intro i _
  rw [pow_add, pow_add, pow_mul]
  norm_num
  ring

/-- C19: on coordinates below `2^21` the Morton index is monotone in the three coordinates
taken together, two comparable triples have the same index only when they are equal, and the
encoder is injective. -/
theorem C19_morton_monotone (x y z x1 y1 z1 : Nat)
    (hx : x < 2 ^ 21) (hy : y < 2 ^ 21) (hz : z < 2 ^ 21)
    (hx1 : x1 < 2 ^ 21) (hy1 : y1 < 2 ^ 21) (hz1 : z1 < 2 ^ 21) :
    (x ≤ x1 → y ≤ y1 → z ≤ z1 →
      EncodeMorton3D x y z ≤ EncodeMorton3D x1 y1 z1 ∧
      (EncodeMorton3D x y z = EncodeMorton3D x1 y1 z1 → x = x1 ∧ y = y1 ∧ z = z1)) ∧
    (EncodeMorton3D x y z = EncodeMorton3D x1 y1 z1 → x = x1 ∧ y = y1 ∧ z = z1) := by
  have inj : EncodeMorton3D x y z = EncodeMorton3D x1 y1 z1 → x = x1 ∧ y = y1 ∧ z = z1 := by
    intro e
    have h := DecodeMorton3D_EncodeMorton3D x y z
    rw [e, DecodeMorton3D_EncodeMorton3D, and_mask21_of_lt hx, and_mask21_of_lt hy,
      and_mask21_of_lt hz, and_mask21_of_lt hx1, and_mask21_of_lt hy1,
      and_mask21_of_lt hz1] at h
    simp only [Prod.mk.injEq] at h
    exact ⟨h.1.symm, h.2.1.symm, h.2.2.symm⟩
  refine ⟨fun h1 h2 h3 => ⟨?_, inj⟩, inj⟩
  rw [EncodeMorton3D_eq_spreadSum, EncodeMorton3D_eq_spreadSum]
  have a := spreadSum_mono 21 x x1 hx1 h1
  have b := spreadSum_mono 21 y y1 hy1 h2
  have c := spreadSum_mono 21 z z1 hz1 h3
  omega

theorem C19_morton_monotone_witness :
    ((3 : Nat) < 2 ^ 21 ∧ (5 : Nat) < 2 ^ 21 ∧ (0 : Nat) < 2 ^ 21 ∧
      (4 : Nat) < 2 ^ 21 ∧ (5 : Nat) < 2 ^ 21 ∧ (2097151 : Nat) < 2 ^ 21 ∧
      (3 : Nat) ≤ 4 ∧ (5 : Nat) ≤ 5 ∧ (0 : Nat) ≤ 2097151) ∧
    EncodeMorton3D 3 5 0 ≤ EncodeMorton3D 4 5 2097151 :=
  ⟨by norm_num,
   ((C19_morton_monotone 3 5 0 4 5 2097151 (by norm_num) (by norm_num) (by norm_num)
     (by norm_num) (by norm_num) (by norm_num)).1 (by norm_num) (by norm_num) (by norm_num)).1⟩

theorem MakeNeuron_fresh {networkSize : Int} (hpos : 0 < networkSize) (r : Rand) :
    ∃ n r1, MakeNeuron networkSize r = some (n, r1) ∧ Fresh n ∧
      ∀ s ∈ n.Synapses, s.PostSynapticNeuron < networkSize.toNat := by
  obtain ⟨ss, r1, h, hb⟩ := MakeNeuron_spec hpos r
  refine ⟨_, r1, h, ?_, hb⟩
  have h100 : r 0 % (100 : Int).toNat < 100 := Nat.mod_lt _ (by decide)
  have h50 : r 1 % (50 : Int).toNat < 50 := Nat.mod_lt _ (by decide)
  have h5 : r 2 % (5 : Int).toNat < 5 := Nat.mod_lt _ (by decide)
  refine ⟨rfl, ?_, ?_, ?_, ?_, ?_, rfl, rfl⟩ <;>
  · simp only [toUint16]
    omega

theorem makeLoop_fresh {networkSize : Int} (hpos : 0 < networkSize) :
    ∀ (k : Nat) (ns : List Neuron) (r : Rand), ∃ ns1 r1,
      makeLoop k networkSize ns r = some (ns1, r1) ∧ ns1.length = ns.length + k ∧
      ∀ n ∈ ns1, n ∈ ns ∨
        (Fresh n ∧ ∀ s ∈ n.Synapses, s.PostSynapticNeuron < networkSize.toNat) := by
  intro k
  induction k with
  | zero => intro ns r; exact ⟨ns, r, rfl, rfl, fun n hn => Or.inl hn⟩
  | succ k ih =>
    intro ns r
    obtain ⟨n, r1, hn, hf, hb⟩ := MakeNeuron_fresh hpos r
    obtain ⟨ns1, r2, h2, hl, hall⟩ := ih (ns ++ [n]) r1
    refine ⟨ns1, r2, by simp only [makeLoop, hn, h2], by simp at hl; omega, ?_⟩
    intro m hm
    rcases hall m hm with h | h
    · rcases List.mem_append.mp h with h1 | h1
      · exact Or.inl h1
      · simp at h1
        subst h1
        exact Or.inr ⟨hf, hb⟩
    · exact Or.inr h

theorem setPositions_mem (xSize ySize : Int) : ∀ (ns : List Neuron) (i : Nat)
    (ns1 : List Neuron), setPositions xSize ySize i ns = some ns1 →
      ns1.length = ns.length ∧
      ∀ n1 ∈ ns1, ∃ n ∈ ns, n1 = { n with Position := n1.Position } := by
  intro ns
  induction ns with
  | nil =>
    intro i ns1 h
    simp only [setPositions, Option.some.injEq] at h
    subst h
    exact ⟨rfl, fun n1 h1 => absurd h1 (List.not_mem_nil _)⟩
  | cons n rest ih =>
    intro i ns1 h
    simp only [setPositions] at h
    cases he : expandIdx i xSize with
    | none => simp [he] at h
    | some rc =>
      simp only [he] at h
      cases hr : setPositions xSize ySize (i + 1) rest with
      | none => simp [hr] at h
      | some tl =>
        simp only [hr, Option.map_some', Option.some.injEq] at h
        subst h
        obtain ⟨hl, hm⟩ := ih (i + 1) tl hr
        refine ⟨by simp [hl], ?_⟩
        intro n1 h1
        rcases List.mem_cons.mp h1 with e | e
        · exact ⟨n, List.mem_cons_self _ _, by rw [e]⟩
        · obtain ⟨m, hm1, hm2⟩ := hm n1 e
          exact ⟨m, List.mem_cons_of_mem _ hm1, hm2⟩

theorem fresh_of_position {n n1 : Neuron} (h : n1 = { n with Position := n1.Position })
    (hf : Fresh n) : Fresh n1 := by
  rw [h]
  exact hf

theorem synapses_of_position {n n1 : Neuron} (h : n1 = { n with Position := n1.Position }) :
    n1.Synapses = n.Synapses := by
  rw [h]

/-- What `InitNetwork` does on a fresh network: nothing for a size that is not positive, a
panic for a positive size with `xSize = 0`, and otherwise a network of `networkSize` fresh
neurons with positions set; the product `xSize * ySize` is never looked at. -/
theorem InitNetwork_fresh (networkSize xSize ySize : Int) (r : Rand) :
    (networkSize ≤ 0 →
      InitNetwork { Neurons := [] } networkSize xSize ySize r = some ({ Neurons := [] }, r)) ∧
    (0 < networkSize → xSize = 0 →
      InitNetwork { Neurons := [] } networkSize xSize ySize r = none) ∧
    (0 < networkSize → xSize ≠ 0 → ∃ net r1,
      InitNetwork { Neurons := [] } networkSize xSize ySize r = some (net, r1) ∧
      net.Neurons.length = networkSize.toNat ∧ (∀ n ∈ net.Neurons, Fresh n) ∧
      WellFormed net.Neurons) := by
  refine ⟨?_, ?_, ?_⟩
  · intro h
    have h0 : networkSize.toNat = 0 := by omega
    simp only [InitNetwork, h0, makeLoop, setPositions, Option.map_some']
  · intro hpos hx
    obtain ⟨ns, r1, hmk, hl, _⟩ := makeLoop_fresh hpos networkSize.toNat [] r
    simp only [InitNetwork, hmk]
    cases ns with
    | nil => simp at hl; omega
    | cons n rest => rw [hx, setPositions_zero]; rfl
  · intro hpos hx
    obtain ⟨ns, r1, hmk, hl, hall⟩ := makeLoop_fresh hpos networkSize.toNat [] r
    obtain ⟨ns1, hp⟩ := setPositions_isSome ySize hx ns 0
    obtain ⟨hl1, hm⟩ := setPositions_mem xSize ySize ns 0 ns1 hp
    refine ⟨{ Neurons := ns1 }, r1, by simp only [InitNetwork, hmk, hp, Option.map_some'],
      by simp at hl; simp only []; omega, ?_, ?_⟩
    · intro n1 h1
      obtain ⟨n, hn, e⟩ := hm n1 h1
      rcases hall n hn with h | h
      · exact absurd h (List.not_mem_nil _)
      · exact fresh_of_position e h.1
    · intro n1 h1 s hs
      obtain ⟨n, hn, e⟩ := hm n1 h1
      rw [synapses_of_position e] at hs
      rcases hall n hn with h | h
      · exact absurd h (List.not_mem_nil _)
      · have := h.2 s hs
        simp at hl
        show s.PostSynapticNeuron < ns1.length
        omega

/-- Whatever network `InitNetwork` builds on a fresh network has `networkSize` neurons (none
for a size that is not positive), all fresh, with every synapse target in range. -/
theorem InitNetwork_some {networkSize xSize ySize : Int} {r r1 : Rand} {net : Network}
    (h : InitNetwork { Neurons := [] } networkSize xSize ySize r = some (net, r1)) :
    net.Neurons.length = networkSize.toNat ∧ (∀ n ∈ net.Neurons, Fresh n) ∧
      WellFormed net.Neurons := by
  obtain ⟨h1, h2, h3⟩ := InitNetwork_fresh networkSize xSize ySize r
  by_cases hpos : 0 < networkSize
  · by_cases hx : xSize = 0
    · rw [h2 hpos hx] at h
      exact absurd h (by simp)
    · obtain ⟨net1, r2, e, hl, hf, hw⟩ := h3 hpos hx
      rw [e] at h
      simp only [Option.some.injEq, Prod.mk.injEq] at h
      obtain ⟨e1, _⟩ := h
      subst e1
      exact ⟨hl, hf, hw⟩
  · rw [h1 (by omega)] at h
    simp only [Option.some.injEq, Prod.mk.injEq] at h
    obtain ⟨e1, _⟩ := h
    subst e1
    have h0 : networkSize.toNat = 0 := by omega
    exact ⟨by simp [h0], fun n hn => absurd hn (List.not_mem_nil _),
      fun n hn => absurd hn (List.not_mem_nil _)⟩

/-- C11 (as stated, refuted): with `networkSize = 2` and a 2 by 2 grid the product of the grid
sides is not the size, yet `InitNetwork` builds a network of 2 neurons. -/
theorem C11_inconsistent_grid_accepted :
    (2 : Int) * 2 ≠ 2 ∧
    (InitNetwork { Neurons := [] } 2 2 2 (fun k => k)).map
      (fun s => s.1.Neurons.length) = some 2 := by
  decide

/-- C11 (amended): `InitNetwork` never compares `xSize * ySize` with `networkSize`: on a fresh
network it builds a network of `networkSize` neurons for every positive size and every grid
with `xSize ≠ 0`, and an empty one for a size that is not positive; it fails only for a
positive size with `xSize = 0`, by the division panic of `expandIdx`, whatever `ySize` is. -/
theorem C11_no_grid_check (networkSize xSize ySize : Int) (r : Rand) :
    ((InitNetwork { Neurons := [] } networkSize xSize ySize r).isSome = true ↔
      (networkSize ≤ 0 ∨ xSize ≠ 0)) ∧
    ((networkSize ≤ 0 ∨ xSize ≠ 0) → ∃ net r1,
      InitNetwork { Neurons := [] } networkSize xSize ySize r = some (net, r1) ∧
      net.Neurons.length = networkSize.toNat) := by
  obtain ⟨h1, h2, h3⟩ := InitNetwork_fresh networkSize xSize ySize r
  have ex : (networkSize ≤ 0 ∨ xSize ≠ 0) → ∃ net r1,
      InitNetwork { Neurons := [] } networkSize xSize ySize r = some (net, r1) ∧
      net.Neurons.length = networkSize.toNat := by
    intro hor
    by_cases hpos : 0 < networkSize
    · have hx : xSize ≠ 0 := by
        rcases hor with h | h
        · omega
        · exact h
      obtain ⟨net, r1, e, hl, _⟩ := h3 hpos hx
      exact ⟨net, r1, e, hl⟩
    · have h0 : networkSize.toNat = 0 := by omega
      exact ⟨_, _, h1 (by omega), by simp [h0]⟩
  refine ⟨⟨fun hs => ?_, fun hor => ?_⟩, ex⟩
  · by_contra hc
    push_neg at hc
    rw [h2 hc.1 hc.2] at hs
    simp at hs
  · obtain ⟨net, r1, e, _⟩ := ex hor
    rw [e]
    rfl

theorem C11_no_grid_check_witness :
    (((7 : Int) ≤ 0 ∨ (3 : Int) ≠ 0) ∧ (3 : Int) * 5 ≠ 7) ∧
    ∃ net r1, InitNetwork { Neurons := [] } 7 3 5 (fun k => k) = some (net, r1) ∧
      net.Neurons.length = (7 : Int).toNat :=
  ⟨⟨Or.inr (by decide), by decide⟩,
   (C11_no_grid_check 7 3 5 (fun k => k)).2 (Or.inr (by decide))⟩

/-- C12 (the code at a failing input): for the method name "hilbert" neither `Encode3D` nor
`Decode3D` reaches a return statement; no value and no error is produced. -/
theorem C12_unknown_method_falls_through :
    Encode3D 1 2 3 "hilbert" = none ∧ Decode3D 7 "hilbert" = none := by
  decide

theorem codec_unknown_method (x y z m : Nat) (method : String) (h : method ≠ "morton") :
    Encode3D x y z method = none ∧ Decode3D m method = none := by
  simp [Encode3D, Decode3D, h]

theorem isFiring_ownEffect (n : Neuron) (r : Rand) :
    (ownEffect n r).IsFiring = if n.RefractoryTimer > 0 then n.IsFiring else firesNow n r := by
  unfold ownEffect firesNow
  by_cases ht : n.RefractoryTimer > 0
  · simp [ht]
  · by_cases hf : integrate n (r 0 % 3) ≥ n.Threshold <;> simp [ht, hf]

/-- The flag `IsFiring` after one tick: a neuron that is evaluated gets the flag of this tick;
a refractory neuron keeps the flag it had. -/
theorem tick_isFiring {g : Game} (r : Rand) (hwf : WellFormed g.Network.Neurons) {i : Nat}
    (hi : i < g.Network.Neurons.length) :
    ∃ o n0 n1, Update g r = some o ∧ g.Network.Neurons[i]? = some n0 ∧
      o.game.Network.Neurons[i]? = some n1 ∧
      n1.IsFiring = if n0.RefractoryTimer > 0 then n0.IsFiring else firesInTick g r i := by
  obtain ⟨o, si, ni, n0, ho, hsi, hni, hn0, hnp, hout, _, _, _, _, _⟩ := tick_neuron r hwf hi
  have ht : ni.RefractoryTimer = n0.RefractoryTimer := firesNow_of_noPot_timer hnp
  have hfl : ni.IsFiring = n0.IsFiring := by
    have := congrArg (fun t => t.IsFiring) hnp
    simpa [noPot] using this
  have hfire : firesInTick g r i = firesNow ni si.2 := by
    simp only [firesInTick, hsi, firesAt, hni, firesNow]
  cases h1 : o.game.Network.Neurons[i]? with
  | none => rw [h1] at hout; simp at hout
  | some n1 =>
    rw [h1] at hout
    simp only [Option.map_some', Option.some.injEq] at hout
    refine ⟨o, n0, n1, ho, hn0, h1, ?_⟩
    have e : n1.IsFiring = (ownEffect ni si.2).IsFiring := by
      have := congrArg (fun t => t.IsFiring) hout
      simpa [noPot] using this
    rw [e, isFiring_ownEffect, ht, hfl, hfire]

/-- C13 (the code at a failing input): in `pairGame` with input 2 on every tick neuron 0 fires
on tick 1; on each of the ticks 2..21 it does not fire, yet its `IsFiring` is still true after
the tick, because the refractory branch leaves the loop body before the flag is assigned; the
flag is cleared on tick 22, when the neuron is evaluated again. -/
theorem C13_isFiring_stale_while_refractory :
    firedOnTick 1 pairGame (fun _ => 2) 0 = some true ∧
    (∀ k < 22, 2 ≤ k →
      firedOnTick k pairGame (fun _ => 2) 0 = some false ∧
      isFiringAfter k pairGame (fun _ => 2) 0 = some true) ∧
    firedOnTick 22 pairGame (fun _ => 2) 0 = some false ∧
    isFiringAfter 22 pairGame (fun _ => 2) 0 = some false := by
  decide

theorem wellFormed_cascadeGame : WellFormed cascadeGame.Network.Neurons := by
  intro n hn s hs
  simp [cascadeGame, mkNeuron] at hn
  rcases hn with rfl | rfl <;> simp at hs
  subst hs
  decide

theorem wellFormed_cascadeCutGame : WellFormed cascadeCutGame.Network.Neurons := by
  intro n hn s hs
  simp [cascadeCutGame, mkNeuron] at hn
  rcases hn with rfl | rfl <;> simp at hs

theorem wellFormed_backwardGame : WellFormed backwardGame.Network.Neurons := by
  intro n hn s hs
  simp [backwardGame, mkNeuron] at hn
  rcases hn with rfl | rfl <;> simp at hs
  subst hs
  decide

/-- C17: same-tick cascading, with input 2 on every tick. In `cascadeGame` neuron 0 fires, its
synapse raises the potential of neuron 1 from 10 to 55, and neuron 1 fires in the same tick;
with the synapses of neuron 0 removed neuron 1 does not fire. In `backwardGame` the firing
neuron is neuron 1: neuron 0 has already had its turn (potential 11, no firing), receives the
weight 45 (potential 56, above its threshold 50) but ends the tick not firing with timer 0, and
fires on tick 2. -/
theorem C17_same_tick_cascade :
    (WellFormed cascadeGame.Network.Neurons ∧
      firesInTick cascadeGame (fun _ => 2) 0 = true ∧
      potentialInTick 0 cascadeGame (fun _ => 2) 1 = some 10 ∧
      potentialInTick 1 cascadeGame (fun _ => 2) 1 = some 55 ∧
      firesInTick cascadeGame (fun _ => 2) 1 = true) ∧
    (WellFormed cascadeCutGame.Network.Neurons ∧
      cascadeCutGame.Network.Neurons =
        (cascadeGame.Network.Neurons.take 1).map (fun n => { n with Synapses := [] }) ++
          cascadeGame.Network.Neurons.drop 1 ∧
      firesInTick cascadeCutGame (fun _ => 2) 0 = true ∧
      firesInTick cascadeCutGame (fun _ => 2) 1 = false) ∧
    (WellFormed backwardGame.Network.Neurons ∧
      firesInTick backwardGame (fun _ => 2) 0 = false ∧
      potentialInTick 1 backwardGame (fun _ => 2) 0 = some 11 ∧
      firesInTick backwardGame (fun _ => 2) 1 = true ∧
      potentialInTick 2 backwardGame (fun _ => 2) 0 = some 56 ∧
      potentialAfter 1 backwardGame (fun _ => 2) 0 = some 56 ∧
      isFiringAfter 1 backwardGame (fun _ => 2) 0 = some false ∧
      timerAfter 1 backwardGame (fun _ => 2) 0 = some 0 ∧
      firedOnTick 2 backwardGame (fun _ => 2) 0 = some true) :=
  ⟨⟨wellFormed_cascadeGame, by decide, by decide, by decide, by decide⟩,
   ⟨wellFormed_cascadeCutGame, by decide, by decide, by decide⟩,
   ⟨wellFormed_backwardGame, by decide, by decide, by decide, by decide, by decide, by decide,
     by decide, by decide⟩⟩

theorem integrate_underflow (n : Neuron) (v : Nat) (hv : v ≤ 2)
    (hlt : (n.Potential + v) % 65536 < n.PotentialDecay) (hD5 : n.PotentialDecay ≤ 5) :
    integrate n v = (n.Potential + v) % 65536 + 65536 - n.PotentialDecay := by
  unfold integrate toUint16
  omega

theorem fresh_fires_on_zero {n : Neuron} (hf : Fresh n) (r : Rand) (h0 : r 0 % 3 = 0) :
    firesNow n r = true := by
  obtain ⟨hp, _, hT, _, hD1, hD5, _, ht⟩ := hf
  have hlt : (n.Potential + 0) % 65536 < n.PotentialDecay := by rw [hp]; simpa using hD1
  have e := integrate_underflow n 0 (by norm_num) hlt hD5
  have hnot : ¬ n.RefractoryTimer > 0 := by rw [ht]; decide
  simp only [firesNow, h0, hnot, decide_False, Bool.not_false, Bool.true_and, decide_eq_true_eq]
  rw [e]
  omega

theorem timersInRange_update {g : Game} (r : Rand) (hwf : WellFormed g.Network.Neurons)
    (ht : TimersInRange g.Network.Neurons) :
    ∃ o, Update g r = some o ∧ WellFormed o.game.Network.Neurons ∧
      TimersInRange o.game.Network.Neurons := by
  obtain ⟨o, ho, _, hl, _, hw⟩ := update_wellFormed g r hwf
  refine ⟨o, ho, hw, ?_⟩
  intro n1 hn1
  obtain ⟨i, hi⟩ := List.mem_iff_getElem?.mp hn1
  have hlt : i < g.Network.Neurons.length := by
    rw [← hl]
    by_contra hc
    rw [List.getElem?_eq_none (by omega)] at hi
    exact absurd hi (by simp)
  obtain ⟨o1, t0, ho1, _, _, ht0, _, _, hto, _⟩ := tick_timer r hwf hlt
  have e : o1 = o := by rw [ho] at ho1; exact (Option.some.inj ho1).symm
  subst e
  have hr0 : 0 ≤ t0 ∧ t0 ≤ 20 := by
    have h0 : g.Network.Neurons[i]? = some g.Network.Neurons[i] := List.getElem?_eq_getElem hlt
    have := ht _ (List.getElem?_mem h0)
    simp only [timerAt, h0, Option.map_some', Option.some.injEq] at ht0
    rw [← ht0]
    exact this
  simp only [timerAt, hi, Option.map_some', Option.some.injEq] at hto
  rw [hto]
  split
  · omega
  · split <;> omega

theorem timersInRange_ticks {g : Game} (r : Rand) (hwf : WellFormed g.Network.Neurons)
    (ht : TimersInRange g.Network.Neurons) :
    ∀ k, ∃ s, ticks k g r = some s ∧ WellFormed s.1.Network.Neurons ∧
      TimersInRange s.1.Network.Neurons := by
  intro k
  induction k with
  | zero => exact ⟨(g, r), rfl, hwf, ht⟩
  | succ k ih =>
    obtain ⟨s, hs, hws, hts⟩ := ih
    obtain ⟨o, ho, hwo, hto⟩ := timersInRange_update s.2 hws hts
    exact ⟨(o.game, o.rand), by rw [ticks_succ, hs]; simp [ho], hwo, hto⟩

/-- C20: every neuron of a freshly initialized network has timer 0; a tick on a well-formed
network whose timers all lie in `0..20` leaves all timers in `0..20`; hence after any number
of ticks from a freshly initialized network every timer lies in `0..20`. -/
theorem C20_timer_range (networkSize xSize ySize t : Int) (r0 r1 : Rand) (net : Network)
    (g : Game) (r : Rand) :
    (InitNetwork { Neurons := [] } networkSize xSize ySize r0 = some (net, r1) →
      (∀ n ∈ net.Neurons, n.RefractoryTimer = 0) ∧
      ∀ k, ∃ s, ticks k { Network := net, TickCount := t } r = some s ∧
        TimersInRange s.1.Network.Neurons) ∧
    (WellFormed g.Network.Neurons → TimersInRange g.Network.Neurons →
      ∃ o, Update g r = some o ∧ TimersInRange o.game.Network.Neurons) := by
  refine ⟨fun hinit => ?_, fun hwf ht => ?_⟩
  · obtain ⟨_, hfr, hw⟩ := InitNetwork_some hinit
    have h0 : ∀ n ∈ net.Neurons, n.RefractoryTimer = 0 := fun n hn => (hfr n hn).2.2.2.2.2.2.2
    refine ⟨h0, fun k => ?_⟩
    have htr : TimersInRange net.Neurons := by
      intro n hn
      rw [h0 n hn]
      exact ⟨le_rfl, by norm_num⟩
    obtain ⟨s, hs, _, hts⟩ :=
      timersInRange_ticks (g := { Network := net, TickCount := t }) r hw htr k
    exact ⟨s, hs, hts⟩
  · obtain ⟨o, ho, _, hto⟩ := timersInRange_update r hwf ht
    exact ⟨o, ho, hto⟩

theorem timersInRange_pairGame : TimersInRange pairGame.Network.Neurons := by
  intro n hn
  simp [pairGame, mkNeuron] at hn
  rcases hn with rfl | rfl <;> decide

theorem C20_timer_range_witness :
    (WellFormed pairGame.Network.Neurons ∧ TimersInRange pairGame.Network.Neurons) ∧
    (∃ o, Update pairGame (fun _ => 2) = some o ∧ TimersInRange o.game.Network.Neurons) ∧
    ∃ net r1, InitNetwork { Neurons := [] } 3 3 1 (fun k => k) = some (net, r1) ∧
      net.Neurons.length = 3 ∧ (∀ n ∈ net.Neurons, n.RefractoryTimer = 0) ∧
      ∀ k, ∃ s, ticks k { Network := net, TickCount := 0 } (fun _ => 2) = some s ∧
        TimersInRange s.1.Network.Neurons :=
  ⟨⟨wellFormed_pairGame, timersInRange_pairGame⟩,
   (C20_timer_range 3 3 1 0 (fun k => k) (fun k => k) { Neurons := [] } pairGame
     (fun _ => 2)).2 wellFormed_pairGame timersInRange_pairGame,
   ((InitNetwork_fresh 3 3 1 (fun k => k)).2.2 (by decide) (by decide)).elim
     (fun net h => h.elim (fun r1 h1 =>
       ⟨net, r1, h1.1, h1.2.1,
         ((C20_timer_range 3 3 1 0 (fun k => k) r1 net pairGame (fun _ => 2)).1 h1.1).1,
         ((C20_timer_range 3 3 1 0 (fun k => k) r1 net pairGame (fun _ => 2)).1 h1.1).2⟩))⟩

/-- C4 (amended): when neuron `i` of a well-formed network fires during a tick, its loop body
changes the potential of every synapse target `j` from its value `m.Potential` right before
the propagation to `(m.Potential + sum of the weights of i's synapses onto j) mod 2^16`, which
is the integer sum whenever that sum lies in `[0, 2^16)`; every neuron other than `i` that is
not a target is left as the loop found it, potential included. -/
theorem C4_firing_effect_targets (g : Game) (r : Rand) (i : Nat)
    (hwf : WellFormed g.Network.Neurons) (hi : i < g.Network.Neurons.length)
    (hf : firesInTick g r i = true) :
    ∃ si ni s1, updateLoop i g.Network.Neurons r = some si ∧ si.1[i]? = some ni ∧
      updateLoop (i + 1) g.Network.Neurons r = some s1 ∧
      stepNeuron si.1 i si.2 = some s1 ∧
      (∀ (j : Nat) (m : Neuron),
        (si.1.set i { ni with
          IsFiring := true, Potential := ni.ResetPotential, RefractoryTimer := 20 })[j]? = some m →
        (∃ s ∈ ni.Synapses, s.PostSynapticNeuron = j) →
        ∃ m1, s1.1[j]? = some m1 ∧
          (m1.Potential : Int) =
            ((m.Potential : Int) + (weightsInto ni.Synapses j).sum) % 65536 ∧
          (0 ≤ (m.Potential : Int) + (weightsInto ni.Synapses j).sum →
            (m.Potential : Int) + (weightsInto ni.Synapses j).sum < 65536 →
            (m1.Potential : Int) = (m.Potential : Int) + (weightsInto ni.Synapses j).sum)) ∧
      (∀ (j : Nat) (m : Neuron), j ≠ i → si.1[j]? = some m →
        (∃ s ∈ ni.Synapses, s.PostSynapticNeuron = j) →
        ∃ m1, s1.1[j]? = some m1 ∧
          (m1.Potential : Int) =
            ((m.Potential : Int) + (weightsInto ni.Synapses j).sum) % 65536) ∧
      (∀ (j : Nat) (m : Neuron), j ≠ i → si.1[j]? = some m →
        (∀ s ∈ ni.Synapses, s.PostSynapticNeuron ≠ j) → s1.1[j]? = some m) := by
  obtain ⟨si, ni, s1, hsi, hni, _, _, hs1, hstep, hj⟩ := fire_step r hwf hi hf
  have tgt : ∀ (j : Nat) (m : Neuron),
      (si.1.set i { ni with
        IsFiring := true, Potential := ni.ResetPotential, RefractoryTimer := 20 })[j]? = some m →
      (∃ s ∈ ni.Synapses, s.PostSynapticNeuron = j) →
      ∃ m1, s1.1[j]? = some m1 ∧
        (m1.Potential : Int) =
          ((m.Potential : Int) + (weightsInto ni.Synapses j).sum) % 65536 := by
    intro j m hm htar
    have h := hj j
    rw [hm] at h
    exact ⟨_, h, addWeights_int _ _ (Or.inl (mem_weightsInto_ne_nil htar))⟩
  refine ⟨si, ni, s1, hsi, hni, hs1, hstep, ?_, ?_, ?_⟩
  · intro j m hm htar
    obtain ⟨m1, h1, e⟩ := tgt j m hm htar
    refine ⟨m1, h1, e, fun h0 hlt => ?_⟩
    rw [e]
    exact Int.emod_eq_of_lt h0 hlt
  · intro j m hne hm htar
    exact tgt j m (by rw [List.getElem?_set_ne (Ne.symm hne)]; exact hm) htar
  · intro j m hne hm hno
    have h := hj j
    rw [List.getElem?_set_ne (Ne.symm hne), hm] at h
    rw [h]
    simp only [Option.map_some', bump, weightsInto_eq_nil hno, addWeights, List.foldl_nil]

theorem C4_firing_effect_targets_witness :
    (WellFormed pairGame.Network.Neurons ∧ 0 < pairGame.Network.Neurons.length ∧
      firesInTick pairGame (fun _ => 2) 0 = true) ∧
    ∃ si ni s1, updateLoop 0 pairGame.Network.Neurons (fun _ => 2) = some si ∧
      si.1[0]? = some ni ∧
      updateLoop (0 + 1) pairGame.Network.Neurons (fun _ => 2) = some s1 ∧
      stepNeuron si.1 0 si.2 = some s1 ∧
      (∀ (j : Nat) (m : Neuron),
        (si.1.set 0 { ni with
          IsFiring := true, Potential := ni.ResetPotential, RefractoryTimer := 20 })[j]? = some m →
        (∃ s ∈ ni.Synapses, s.PostSynapticNeuron = j) →
        ∃ m1, s1.1[j]? = some m1 ∧
          (m1.Potential : Int) =
            ((m.Potential : Int) + (weightsInto ni.Synapses j).sum) % 65536 ∧
          (0 ≤ (m.Potential : Int) + (weightsInto ni.Synapses j).sum →
            (m.Potential : Int) + (weightsInto ni.Synapses j).sum < 65536 →
            (m1.Potential : Int) = (m.Potential : Int) + (weightsInto ni.Synapses j).sum)) ∧
      (∀ (j : Nat) (m : Neuron), j ≠ 0 → si.1[j]? = some m →
        (∃ s ∈ ni.Synapses, s.PostSynapticNeuron = j) →
        ∃ m1, s1.1[j]? = some m1 ∧
          (m1.Potential : Int) =
            ((m.Potential : Int) + (weightsInto ni.Synapses j).sum) % 65536) ∧
      (∀ (j : Nat) (m : Neuron), j ≠ 0 → si.1[j]? = some m →
        (∀ s ∈ ni.Synapses, s.PostSynapticNeuron ≠ j) → s1.1[j]? = some m) :=
  ⟨⟨wellFormed_pairGame, by decide, by decide⟩,
   C4_firing_effect_targets pairGame (fun _ => 2) 0 wellFormed_pairGame (by decide) (by decide)⟩

theorem wellFormed_maxTickGame : WellFormed maxTickGame.Network.Neurons :=
  wellFormed_pairGame

theorem wrapInt_of_lt {t : Int} (h0 : -9223372036854775808 ≤ t) (h1 : t < 9223372036854775807) :
    wrapInt (t + 1) = t + 1 := by
  unfold wrapInt
  omega

/-- C14 (as stated, refuted): with the tick counter at the largest `int`, 9223372036854775807,
a tick leaves it at -9223372036854775808: it does not grow by 1. -/
theorem C14_tick_counter_wraps :
    WellFormed maxTickGame.Network.Neurons ∧
    maxTickGame.TickCount = 9223372036854775807 ∧
    (Update maxTickGame (fun _ => 0)).map (fun o => o.game.TickCount) =
      some (-9223372036854775808) ∧
    (-9223372036854775808 : Int) ≠ 9223372036854775807 + 1 :=
  ⟨wellFormed_maxTickGame, by decide, by decide, by decide⟩

/-- C14 (amended): a tick on a well-formed network keeps the number and order of the neurons
and, for each of them, `Threshold`, `ResetPotential`, `PotentialDecay`, `Position` and the list
of synapses; the tick counter grows by exactly 1 when it is below the largest `int` and wraps
to the smallest `int` when it is the largest. -/
theorem C14_tick_frame (g : Game) (r : Rand) (hwf : WellFormed g.Network.Neurons) :
    ∃ o, Update g r = some o ∧
      o.game.TickCount = wrapInt (g.TickCount + 1) ∧
      (-9223372036854775808 ≤ g.TickCount → g.TickCount < 9223372036854775807 →
        o.game.TickCount = g.TickCount + 1) ∧
      (g.TickCount = 9223372036854775807 → o.game.TickCount = -9223372036854775808) ∧
      o.game.Network.Neurons.length = g.Network.Neurons.length ∧
      ∀ (j : Nat) (n : Neuron), g.Network.Neurons[j]? = some n →
        ∃ n1, o.game.Network.Neurons[j]? = some n1 ∧
          n1.Threshold = n.Threshold ∧ n1.ResetPotential = n.ResetPotential ∧
          n1.PotentialDecay = n.PotentialDecay ∧ n1.Position = n.Position ∧
          n1.Synapses = n.Synapses := by
  obtain ⟨s, hs, hl, hst, _, _⟩ := updateLoop_inv r hwf g.Network.Neurons.length le_rfl
  have ho : Update g r = some ⟨⟨⟨s.1⟩, wrapInt (g.TickCount + 1)⟩, s.2, none⟩ := by
    simp only [Update, hs, Option.map_some']
  refine ⟨_, ho, rfl, fun h0 h1 => wrapInt_of_lt h0 h1, fun hmax => ?_, hl, ?_⟩
  · show wrapInt (g.TickCount + 1) = _
    rw [hmax]
    decide
  · intro j n hn
    have e := hst j
    rw [hn] at e
    cases h1 : s.1[j]? with
    | none => rw [h1] at e; simp at e
    | some n1 =>
      rw [h1] at e
      simp only [Option.map_some', Option.some.injEq, statics, Prod.mk.injEq] at e
      exact ⟨n1, rfl, e.1, e.2.1, e.2.2.1, e.2.2.2.2, e.2.2.2.1⟩

theorem C14_tick_frame_witness :
    (WellFormed pairGame.Network.Neurons ∧ -9223372036854775808 ≤ pairGame.TickCount ∧
      pairGame.TickCount < 9223372036854775807) ∧
    ∃ o, Update pairGame (fun _ => 0) = some o ∧
      o.game.TickCount = pairGame.TickCount + 1 ∧
      o.game.Network.Neurons.length = pairGame.Network.Neurons.length :=
  ⟨⟨wellFormed_pairGame, by decide, by decide⟩,
   (C14_tick_frame pairGame (fun _ => 0) wellFormed_pairGame).elim
     (fun o h => ⟨o, h.1, h.2.2.1 (by decide) (by decide), h.2.2.2.2.1⟩)⟩

/-- A neuron that the loop of a tick reaches while it is not refractory, with
`Threshold ≤ 149`, decay at most 5 and `(Potential + input) mod 2^16` below the decay, takes the
firing branch of the loop body: after its step and after the whole tick `IsFiring` is true and
the timer is 20. -/
theorem underflow_fires_in_tick {g : Game} (r : Rand) (hwf : WellFormed g.Network.Neurons)
    {i : Nat} (hi : i < g.Network.Neurons.length) {si : List Neuron × Rand} {ni : Neuron}
    (hsi : updateLoop i g.Network.Neurons r = some si) (hni : si.1[i]? = some ni)
    (ht : ¬ ni.RefractoryTimer > 0) (hT : ni.Threshold ≤ 149) (hD5 : ni.PotentialDecay ≤ 5)
    (hlt : (ni.Potential + si.2 0 % 3) % 65536 < ni.PotentialDecay) :
    FiresInStep g r i si := by
  have hv : si.2 0 % 3 ≤ 2 := by omega
  have e := integrate_underflow ni (si.2 0 % 3) hv hlt hD5
  have hth : integrate ni (si.2 0 % 3) ≥ ni.Threshold := by rw [e]; omega
  have hf : firesInTick g r i = true := by
    simp only [firesInTick, hsi, firesAt, hni, ht, decide_False, Bool.not_false, Bool.true_and,
      decide_eq_true_eq]
    exact hth
  obtain ⟨si1, ni1, s1, hsi1, hni1, _, _, hs1, hstep, hj⟩ := fire_step r hwf hi hf
  have e1 : si1 = si := by rw [hsi] at hsi1; exact (Option.some.inj hsi1).symm
  subst e1
  have e2 : ni1 = ni := by rw [hni] at hni1; exact (Option.some.inj hni1).symm
  subst e2
  have hlt1 : i < si1.1.length := by
    by_contra hc
    rw [List.getElem?_eq_none (by omega)] at hni
    exact absurd hni (by simp)
  have h1 := hj i
  rw [List.getElem?_set, if_pos rfl, if_pos hlt1] at h1
  obtain ⟨o, si2, ni2, n0, ho, hsi2, hni2, _, _, hout, _, _, _, _, _⟩ := tick_neuron r hwf hi
  have e3 : si2 = si1 := by rw [hsi] at hsi2; exact (Option.some.inj hsi2).symm
  subst e3
  have e4 : ni2 = ni1 := by rw [hni] at hni2; exact (Option.some.inj hni2).symm
  subst e4
  have eo : ownEffect ni2 si2.2 = { ni2 with
      IsFiring := true, Potential := ni2.ResetPotential, RefractoryTimer := 20 } := by
    simp [ownEffect, ht, hth]
  cases h2 : o.game.Network.Neurons[i]? with
  | none => rw [h2] at hout; simp at hout
  | some n2 =>
    rw [h2, eo] at hout
    simp only [Option.map_some', Option.some.injEq] at hout
    have f1 : n2.IsFiring = true := by
      have := congrArg (fun t => t.IsFiring) hout
      simpa [noPot] using this
    have f2 : n2.RefractoryTimer = 20 := by
      have := congrArg (fun t => t.RefractoryTimer) hout
      simpa [noPot] using this
    exact ⟨s1, _, hstep, hs1, h1, rfl, rfl, o, n2, ho, h2, f1, f2⟩

theorem fresh_underflow_fires_in_tick {networkSize xSize ySize : Int} {r0 r1 : Rand}
    {net : Network} (t : Int)
    (hinit : InitNetwork { Neurons := [] } networkSize xSize ySize r0 = some (net, r1))
    (r : Rand) {k : Nat} (hk : k < net.Neurons.length) {sk : List Neuron × Rand} {nk : Neuron}
    (hsk : updateLoop k net.Neurons r = some sk) (hnk : sk.1[k]? = some nk)
    (hp : nk.Potential = 0) (h0 : sk.2 0 % 3 = 0) :
    FiresInStep { Network := net, TickCount := t } r k sk := by
  obtain ⟨_, hfr, hw⟩ := InitNetwork_some hinit
  obtain ⟨_, si, ni, n0, _, hsi, hni, hn0, hnp, _⟩ :=
    tick_neuron (g := { Network := net, TickCount := t }) r hw hk
  have e1 : si = sk := by
    have h := hsi
    simp only [] at h
    rw [hsk] at h
    exact (Option.some.inj h).symm
  subst e1
  have e2 : ni = nk := by rw [hnk] at hni; exact (Option.some.inj hni).symm
  subst e2
  obtain ⟨_, _, hT, _, hD1, hD5, _, ht⟩ := hfr n0 (List.getElem?_mem hn0)
  have a1 : ni.RefractoryTimer = n0.RefractoryTimer := firesNow_of_noPot_timer hnp
  have a2 : ni.Threshold = n0.Threshold := by
    have := congrArg (fun x => x.Threshold) hnp
    simpa [noPot] using this
  have a3 : ni.PotentialDecay = n0.PotentialDecay := by
    have := congrArg (fun x => x.PotentialDecay) hnp
    simpa [noPot] using this
  exact underflow_fires_in_tick (g := { Network := net, TickCount := t }) r hw hk hsk hnk
    (by rw [a1, ht]; decide) (by rw [a2]; exact hT) (by rw [a3]; exact hD5)
    (by rw [hp, h0, a3]; simpa using hD1)

/-- C18 (as stated, refuted): a freshly constructed neuron that draws input 0 need not fire on
its first tick. In the network `InitNetwork(2, 2, 1)` builds from `freshStream`, with draw 0
throughout, neuron 0 fires and sends weight 10 to neuron 1 before the turn of neuron 1, which
then computes 10 + 0 - 1 = 9, below its threshold 50, and does not fire. -/
theorem C18_fresh_neuron_need_not_fire :
    freshPairGame.map (fun g => g.Network.Neurons.map
        (fun n => (n.Potential, n.Threshold, n.PotentialDecay, n.RefractoryTimer, n.Synapses))) =
      some [(0, 50, 1, 0, [⟨1, 10⟩]), (0, 50, 1, 0, [⟨0, 1⟩])] ∧
    freshPairGame.bind (fun g => firedOnTick 1 g (fun _ => 0) 0) = some true ∧
    freshPairGame.bind (fun g => (updateLoop 1 g.Network.Neurons (fun _ => 0)).bind
        (fun s => s.1[1]?.map (fun n => (n.Potential, s.2 0 % 3)))) = some (10, 0) ∧
    freshPairGame.bind (fun g => firedOnTick 1 g (fun _ => 0) 1) = some false ∧
    freshPairGame.bind (fun g => potentialAfter 1 g (fun _ => 0) 1) = some 9 ∧
    freshPairGame.bind (fun g => isFiringAfter 1 g (fun _ => 0) 1) = some false ∧
    freshPairGame.bind (fun g => timerAfter 1 g (fun _ => 0) 1) = some 0 :=
  ⟨by rfl, by decide, by decide, by decide, by decide, by decide, by decide⟩

/-- C18 (amended): a neuron that the loop of a tick reaches while it is not refractory, with
`Threshold ≤ 149`, `PotentialDecay` in `1..5` and input `v` in `0..2` such that
`(Potential + v) mod 2^16 < PotentialDecay`, has potential
`(Potential + v) mod 2^16 + 65536 - PotentialDecay`, at least 65531, after the decay step, and
takes the firing branch: `IsFiring` true and timer 20 after its step and after the tick. In a
freshly built network this holds for every neuron whose potential is still 0 when its turn
comes and that draws input 0, and always for neuron 0 when it draws 0. -/
theorem C18_decay_underflow_fires (g : Game) (r : Rand) (i : Nat) (si : List Neuron × Rand)
    (ni : Neuron) (v : Nat) (networkSize xSize ySize t : Int) (r0 r1 : Rand) (net : Network)
    (hwf : WellFormed g.Network.Neurons) (hi : i < g.Network.Neurons.length)
    (hsi : updateLoop i g.Network.Neurons r = some si) (hni : si.1[i]? = some ni)
    (ht : ¬ ni.RefractoryTimer > 0) (hT : ni.Threshold ≤ 149)
    (_hD1 : 1 ≤ ni.PotentialDecay) (hD5 : ni.PotentialDecay ≤ 5) (hv : si.2 0 % 3 = v)
    (hlt : (ni.Potential + v) % 65536 < ni.PotentialDecay) :
    v ≤ 2 ∧
    integrate ni v = (ni.Potential + v) % 65536 + 65536 - ni.PotentialDecay ∧
    65531 ≤ integrate ni v ∧
    FiresInStep g r i si ∧
    (InitNetwork { Neurons := [] } networkSize xSize ySize r0 = some (net, r1) →
      (∀ (rr : Rand) (k : Nat) (sk : List Neuron × Rand) (nk : Neuron),
        k < net.Neurons.length → updateLoop k net.Neurons rr = some sk → sk.1[k]? = some nk →
        nk.Potential = 0 → sk.2 0 % 3 = 0 →
        FiresInStep { Network := net, TickCount := t } rr k sk) ∧
      (0 < networkSize → ∀ rr : Rand, rr 0 % 3 = 0 →
        FiresInStep { Network := net, TickCount := t } rr 0 (net.Neurons, rr))) := by
  have hv2 : v ≤ 2 := by omega
  have e := integrate_underflow ni v hv2 hlt hD5
  refine ⟨hv2, e, by rw [e]; omega, ?_, fun hinit => ⟨?_, ?_⟩⟩
  · exact underflow_fires_in_tick r hwf hi hsi hni ht hT hD5 (by rw [hv]; exact hlt)
  · intro rr k sk nk hk hsk hnk hp h0
    exact fresh_underflow_fires_in_tick t hinit rr hk hsk hnk hp h0
  · intro hpos rr h0
    obtain ⟨hl, hfr, _⟩ := InitNetwork_some hinit
    have hlen : 0 < net.Neurons.length := by omega
    have hn : net.Neurons[0]? = some net.Neurons[0] := List.getElem?_eq_getElem hlen
    have h00 : updateLoop 0 net.Neurons rr = some (net.Neurons, rr) := rfl
    exact fresh_underflow_fires_in_tick t hinit rr hlen h00 hn
      (hfr _ (List.getElem?_mem hn)).1 h0

theorem wellFormed_exampleGame : WellFormed exampleGame.Network.Neurons := by
  intro n hn s hs
  simp [exampleGame, mkNeuron] at hn
  subst hn
  simp at hs

theorem C18_decay_underflow_fires_witness :
    (WellFormed exampleGame.Network.Neurons ∧ 0 < exampleGame.Network.Neurons.length ∧
      updateLoop 0 exampleGame.Network.Neurons (fun _ => 0) =
        some (exampleGame.Network.Neurons, fun _ => 0) ∧
      exampleGame.Network.Neurons[0]? = some (mkNeuron 0 50 10 1 []) ∧
      ¬ (mkNeuron 0 50 10 1 []).RefractoryTimer > 0 ∧ (mkNeuron 0 50 10 1 []).Threshold ≤ 149 ∧
      1 ≤ (mkNeuron 0 50 10 1 []).PotentialDecay ∧ (mkNeuron 0 50 10 1 []).PotentialDecay ≤ 5 ∧
      ((mkNeuron 0 50 10 1 []).Potential + 0) % 65536 < (mkNeuron 0 50 10 1 []).PotentialDecay) ∧
    integrate (mkNeuron 0 50 10 1 []) 0 = 65535 ∧
    FiresInStep exampleGame (fun _ => 0) 0 (exampleGame.Network.Neurons, fun _ => 0) ∧
    ∃ net r1, InitNetwork { Neurons := [] } 3 3 1 (fun k => k) = some (net, r1) ∧
      net.Neurons.length = 3 ∧
      FiresInStep { Network := net, TickCount := 0 } (fun _ => 0) 0 (net.Neurons, fun _ => 0) :=
  ⟨⟨wellFormed_exampleGame, by decide, rfl, rfl, by decide, by decide, by decide, by decide,
     by decide⟩,
   (C18_decay_underflow_fires exampleGame (fun _ => 0) 0
     (exampleGame.Network.Neurons, fun _ => 0) (mkNeuron 0 50 10 1 []) 0 3 3 1 0
     (fun k => k) (fun k => k) { Neurons := [] } wellFormed_exampleGame (by decide) rfl rfl
     (by decide) (by decide) (by decide) (by decide) rfl (by decide)).2.1,
   (C18_decay_underflow_fires exampleGame (fun _ => 0) 0
     (exampleGame.Network.Neurons, fun _ => 0) (mkNeuron 0 50 10 1 []) 0 3 3 1 0
     (fun k => k) (fun k => k) { Neurons := [] } wellFormed_exampleGame (by decide) rfl rfl
     (by decide) (by decide) (by decide) (by decide) rfl (by decide)).2.2.2.1,
   ((InitNetwork_fresh 3 3 1 (fun k => k)).2.2 (by decide) (by decide)).elim
     (fun net h => h.elim (fun r1 h1 =>
       ⟨net, r1, h1.1, h1.2.1,
         ((C18_decay_underflow_fires exampleGame (fun _ => 0) 0
           (exampleGame.Network.Neurons, fun _ => 0) (mkNeuron 0 50 10 1 []) 0 3 3 1 0
           (fun k => k) r1 net wellFormed_exampleGame (by decide) rfl rfl
           (by decide) (by decide) (by decide) (by decide) rfl (by decide)).2.2.2.2 h1.1).2
           (by decide) (fun _ => 0) rfl⟩))⟩

end Spikenn
